import Mathlib

/-!
# Statistics aggregation of the OpenSSL benchmark tools

Shallow embedding of the statistics code shared by `ec_generator.cpp`,
`rsa_generator.cpp` and `ecdsa_signer.cpp`: the five statistics fields, the
constructor, `updateStats`, the timed loop of `workerThread` and the worker
part of `run`.

Conventions.
* A `uint64_t` is a `Nat`; `++` and `+=` on the 64-bit fields reduce modulo `2^64`.
* A `std::chrono` microsecond count is an `Int` (signed 64-bit representation);
  `static_cast<uint64_t>` is reduction modulo `2^64`.
* The mutex `stats_mutex` makes every `updateStats` call atomic, so a concurrent
  run is a fold of `updateStats` over an interleaving of the workers' calls.
-/

namespace Bench

/-- The three tools; their statistics code differs only in the sanity ceiling
(and in the names `total_signatures_generated` / `first_signature_generated`
used by the signer for the count and the flag). -/
inductive Tool where
  | ECGenerator
  | RSAGenerator
  | ECDSASigner
  deriving DecidableEq, Repr

/-- The constant of the sanity check in `updateStats`:
`10000000ULL`, `3600000000ULL` and `1000000ULL`. -/
def Tool.ceiling : Tool → Nat
  | .ECGenerator => 10000000
  | .RSAGenerator => 3600000000
  | .ECDSASigner => 1000000

/-- Number of values of a `uint64_t`. -/
def UINT64_SIZE : Nat := 2 ^ 64

/-- The statistics fields of a generator object (the data guarded by `stats_mutex`). -/
@[ext]
structure Stats where
  total_keys_generated : Nat
  total_time_microseconds : Nat
  min_time_microseconds : Nat
  max_time_microseconds : Nat
  first_key_generated : Bool
  deriving DecidableEq, Repr

/-- The state left by the constructor: member initialisers `{0}` / `{false}`. -/
def Stats.fresh : Stats :=
  { total_keys_generated := 0
    total_time_microseconds := 0
    min_time_microseconds := 0
    max_time_microseconds := 0
    first_key_generated := false }

/-- The sanity check of `updateStats`, negated: the measurement is kept. -/
def passes (tool : Tool) (time_microseconds : Nat) : Bool :=
  !(time_microseconds == 0 || decide (time_microseconds > tool.ceiling))

/-- Body of `updateStats(uint64_t time_microseconds)`, executed under the mutex. -/
def updateStats (tool : Tool) (s : Stats) (time_microseconds : Nat) : Stats :=
  if time_microseconds = 0 ∨ time_microseconds > tool.ceiling then
    s
  else
    let s1 : Stats :=
      { s with
        total_keys_generated := (s.total_keys_generated + 1) % UINT64_SIZE
        total_time_microseconds := (s.total_time_microseconds + time_microseconds) % UINT64_SIZE }
    if !s1.first_key_generated then
      { s1 with
        min_time_microseconds := time_microseconds
        max_time_microseconds := time_microseconds
        first_key_generated := true }
    else
      let s2 : Stats :=
        if time_microseconds < s1.min_time_microseconds then
          { s1 with min_time_microseconds := time_microseconds }
        else s1
      if time_microseconds > s2.max_time_microseconds then
        { s2 with max_time_microseconds := time_microseconds }
      else s2

/-- The method `ECGenerator::updateStats`. -/
def ECGenerator.updateStats : Stats → Nat → Stats := Bench.updateStats Tool.ECGenerator

/-- The method `RSAGenerator::updateStats`. -/
def RSAGenerator.updateStats : Stats → Nat → Stats := Bench.updateStats Tool.RSAGenerator

/-- The method `ECDSASigner::updateStats`. -/
def ECDSASigner.updateStats : Stats → Nat → Stats := Bench.updateStats Tool.ECDSASigner

/-- A sequence of `updateStats` calls applied to a state, in order. -/
def applyAll (tool : Tool) (s : Stats) (ds : List Nat) : Stats :=
  ds.foldl (updateStats tool) s

/-- A sequence of `updateStats` calls on a freshly constructed object. -/
def runStats (tool : Tool) (ds : List Nat) : Stats :=
  applyAll tool Stats.fresh ds

/-- What one invocation of the timed operation does: `none` when the OpenSSL
call fails, `some c` when it succeeds and `duration.count()` is `c`. -/
abbrev Outcome := Option Int

/-- The conversion `static_cast<uint64_t>` of a signed 64-bit count. -/
def toUInt64 (c : Int) : Nat := (c % (UINT64_SIZE : Int)).toNat

/-- The argument of the `updateStats` call of one loop iteration, if the
iteration makes one: the operation succeeded and `duration.count() > 0`. -/
def loopCall (o : Outcome) : Option Nat :=
  match o with
  | none => none
  | some c => if c > 0 then some (toUInt64 c) else none

/-- One iteration of the timed loop of `workerThread`. -/
def loopBody (tool : Tool) (s : Stats) (o : Outcome) : Stats :=
  match o with
  | none => s
  | some c => if c > 0 then updateStats tool s (toUInt64 c) else s

/-- The method `workerThread` run alone on the state `s`: `setup_ok` tells whether
the per-thread resource was created (otherwise the early `return`), `op i` is
the outcome of the invocation made by iteration `i` of
`for (int i = 0; i < num_loops; i++)`. -/
def workerThread (tool : Tool) (setup_ok : Bool) (op : Nat → Outcome) (num_loops : Int)
    (s : Stats) : Stats :=
  if !setup_ok then s
  else (List.range num_loops.toNat).foldl (fun st i => loopBody tool st (op i)) s

/-- The `updateStats` calls a worker issues, in program order. -/
def workerCalls (setup_ok : Bool) (op : Nat → Outcome) (num_loops : Int) : List Nat :=
  if !setup_ok then []
  else (List.range num_loops.toNat).filterMap (fun i => loopCall (op i))

/-- Merges of several sequences: `Interleaving ws l` says that `l` takes every
element of every sequence of `ws` exactly once and keeps the order inside each
sequence.  These are the orders in which the mutex can serialise the calls of
concurrent workers. -/
inductive Interleaving {α : Type} : List (List α) → List α → Prop where
  | done (ws : List (List α)) : (∀ w ∈ ws, w = []) → Interleaving ws []
  | step (pre post : List (List α)) (d : α) (w l : List α) :
      Interleaving (pre ++ w :: post) l → Interleaving (pre ++ (d :: w) :: post) (d :: l)

/-- What the environment does during one call of `run`: whether the curve name
is in `curve_map`, whether the resource setup of worker `w` succeeds, and the
outcome of iteration `i` of worker `w`. -/
structure Env where
  curve_known : Bool
  setup_ok : Nat → Bool
  op : Nat → Nat → Outcome

/-- Whether `run` starts with the `curve_map.find` validation (the RSA tool takes
a key size and has none). -/
def Tool.checksCurve : Tool → Bool
  | .ECGenerator => true
  | .RSAGenerator => false
  | .ECDSASigner => true

/-- The call sequences of the workers started by
`for (int i = 0; i < num_threads; i++) threads.emplace_back(...)`;
no worker is started when the curve validation of `run` fails. -/
def runCalls (tool : Tool) (env : Env) (num_threads num_loops : Int) : List (List Nat) :=
  if tool.checksCurve && !env.curve_known then []
  else (List.range num_threads.toNat).map
    (fun w => workerCalls (env.setup_ok w) (env.op w) num_loops)

/-- The statistics after `run` has joined its workers: the calls of the workers,
serialised by the mutex in some interleaving, applied to the fresh object. -/
def RunFinal (tool : Tool) (env : Env) (num_threads num_loops : Int) (s : Stats) : Prop :=
  ∃ l, Interleaving (runCalls tool env num_threads num_loops) l ∧ s = runStats tool l

/-- The validation of `num_threads` and `num_loops` in `main`. -/
def validConfig (num_threads num_loops : Int) : Bool :=
  !(decide (num_threads < 1) || decide (num_threads > 100)) && !decide (num_loops < 1)

/-- The values of the signed 64-bit representation of a `std::chrono` duration,
the type of `duration.count()`. -/
def isInt64 (c : Int) : Prop := -(2 ^ 63) ≤ c ∧ c < 2 ^ 63

instance (c : Int) : Decidable (isInt64 c) :=
  inferInstanceAs (Decidable (-(2 ^ 63) ≤ c ∧ c < 2 ^ 63))

/-- What `workerThread` leaves behind: the statistics, and how many times the
timed operation was invoked. -/
structure WorkerRun where
  stats : Stats
  invocations : Nat

/-- The method `workerThread` with its invocations of the timed operation counted:
none before the early `return` of a failed setup, one per iteration of
`for (int i = 0; i < num_loops; i++)` otherwise, whatever its outcome. -/
def workerThreadCounted (tool : Tool) (setup_ok : Bool) (op : Nat → Outcome) (num_loops : Int)
    (s : Stats) : WorkerRun :=
  if !setup_ok then { stats := s, invocations := 0 }
  else (List.range num_loops.toNat).foldl
    (fun r i => { stats := loopBody tool r.stats (op i), invocations := r.invocations + 1 })
    { stats := s, invocations := 0 }

/-- The resource setup at the head of `ECDSASigner::workerThread`, with its three
early returns: `createECKey`, `EVP_MD_CTX_new` and the first `EVP_DigestSignInit`. -/
def ECDSASigner.setup (key_created md_ctx_created sign_init_ok : Bool) : Bool :=
  if !key_created then false
  else if !md_ctx_created then false
  else if !sign_init_ok then false
  else true

/-- The arithmetic of `double` that `printStats` uses, kept abstract: the literals
`0.0` and `1000.0`, the conversion of a `uint64_t` (`static_cast<double>` and the
implicit conversion of `total_keys`), the conversion of the signed
`elapsed.count()`, and the division. -/
structure FloatOps (α : Type) where
  zero : α
  thousand : α
  ofUInt64 : Nat → α
  ofInt64 : Int → α
  div : α → α → α

/-- The numbers of one progress line: the count and the four values streamed
after it (each shown with two decimals). -/
structure Report (α : Type) where
  keys : Nat
  throughput : α
  avg_time_ms : α
  min_time_ms : α
  max_time_ms : α

/-- What a call of `printStats` does: the statistics fields of the object after
the call, the five locals read under the mutex, the numbers printed, and the
divisor of every `/` the call evaluates, in order, as the integer it is before
its conversion to `double` (1000 for the literal `1000.0`). -/
structure PrintStats (α : Type) where
  state : Stats
  snapshot : Stats
  report : Report α
  divisors : List Int

/-- The method `printStats`, the same in the three tools up to the label and the
field widths; `elapsed` is `elapsed.count()`, the whole seconds since
`start_time`.  With `total_keys == 0` the line of literal zeros is printed and
the method returns. -/
def printStats {α : Type} (F : FloatOps α) (s : Stats) (elapsed : Int) : PrintStats α :=
  let total_keys := s.total_keys_generated
  let total_time := s.total_time_microseconds
  let min_time := s.min_time_microseconds
  let max_time := s.max_time_microseconds
  let keys_generated := s.first_key_generated
  let snapshot : Stats := ⟨total_keys, total_time, min_time, max_time, keys_generated⟩
  if total_keys = 0 then
    { state := s
      snapshot := snapshot
      report := ⟨0, F.zero, F.zero, F.zero, F.zero⟩
      divisors := [] }
  else
    let throughput :=
      if elapsed > 0 then F.div (F.ofUInt64 total_keys) (F.ofInt64 elapsed) else F.zero
    let avg_time_ms := F.div (F.div (F.ofUInt64 total_time) (F.ofUInt64 total_keys)) F.thousand
    let min_time_ms := F.div (F.ofUInt64 min_time) F.thousand
    let max_time_ms := F.div (F.ofUInt64 max_time) F.thousand
    let show_zero := !keys_generated || min_time == 0 || max_time == 0
    { state := s
      snapshot := snapshot
      report :=
        ⟨total_keys, throughput, avg_time_ms,
          if show_zero then F.zero else min_time_ms,
          if show_zero then F.zero else max_time_ms⟩
      divisors := (if elapsed > 0 then [elapsed] else []) ++ [(total_keys : Int), 1000, 1000, 1000] }

/-- Exact rational arithmetic, an instance of the abstract arithmetic. -/
def exactOps : FloatOps ℚ :=
  { zero := 0
    thousand := 1000
    ofUInt64 := fun n => (n : ℚ)
    ofInt64 := fun z => (z : ℚ)
    div := fun a b => a / b }

/-- The keys of `curve_map`, the same in the EC key generator and the signer. -/
def curve_map_keys : List String := ["P256", "P384", "P521"]

/-- The normalisation `std::transform(..., ::toupper)` of the curve name. -/
def toupper (s : String) : String := String.mk (s.data.map Char.toUpper)

/-- The lines printed by the method `listSupportedCurves`. -/
def listSupportedCurves : List String :=
  [ "Supported EC curves:",
    "  P256  - NIST P-256 (secp256r1, prime256v1) - 256-bit",
    "  P384  - NIST P-384 (secp384r1) - 384-bit",
    "  P521  - NIST P-521 (secp521r1) - 521-bit" ]

/-- What `main` does besides returning: it prints the usage, lists the curves,
prints a validation error, or constructs the generator and calls `run`. -/
inductive MainAction where
  | printUsage
  | listSupportedCurves
  | error (message : String)
  | runCurve (curve_name : String) (num_threads num_loops : Int)
  | runRSA (keysize num_threads num_loops : Int)
  deriving DecidableEq, Repr

/-- The value returned by `main` and what it did. -/
structure MainResult where
  exit_code : Int
  action : MainAction
  deriving DecidableEq, Repr

/-- The function `main` of `ec_generator.cpp`; `argv` holds the program name and
the arguments (`argc` is its length), `atoi` is `std::atoi`. -/
def ECGenerator.main (atoi : String → Int) (argv : List String) : MainResult :=
  if argv.length = 2 ∧ (argv.getD 1 "" = "--curves" ∨ argv.getD 1 "" = "-c") then
    { exit_code := 0, action := .listSupportedCurves }
  else if argv.length ≠ 4 then
    { exit_code := 1, action := .printUsage }
  else
    let curve_name := toupper (argv.getD 1 "")
    let num_threads := atoi (argv.getD 2 "")
    let num_loops := atoi (argv.getD 3 "")
    if num_threads < 1 ∨ num_threads > 100 then
      { exit_code := 1, action := .error "Error: Number of threads must be between 1 and 100" }
    else if num_loops < 1 then
      { exit_code := 1, action := .error "Error: Number of loops must be at least 1" }
    else
      { exit_code := 0, action := .runCurve curve_name num_threads num_loops }

/-- The function `main` of `ecdsa_signer.cpp`, which reads like the one of
`ec_generator.cpp`. -/
def ECDSASigner.main (atoi : String → Int) (argv : List String) : MainResult :=
  if argv.length = 2 ∧ (argv.getD 1 "" = "--curves" ∨ argv.getD 1 "" = "-c") then
    { exit_code := 0, action := .listSupportedCurves }
  else if argv.length ≠ 4 then
    { exit_code := 1, action := .printUsage }
  else
    let curve_name := toupper (argv.getD 1 "")
    let num_threads := atoi (argv.getD 2 "")
    let num_loops := atoi (argv.getD 3 "")
    if num_threads < 1 ∨ num_threads > 100 then
      { exit_code := 1, action := .error "Error: Number of threads must be between 1 and 100" }
    else if num_loops < 1 then
      { exit_code := 1, action := .error "Error: Number of loops must be at least 1" }
    else
      { exit_code := 0, action := .runCurve curve_name num_threads num_loops }

/-- The function `main` of `rsa_generator.cpp`. -/
def RSAGenerator.main (atoi : String → Int) (argv : List String) : MainResult :=
  if argv.length ≠ 4 then
    { exit_code := 1, action := .printUsage }
  else
    let keysize := atoi (argv.getD 1 "")
    let num_threads := atoi (argv.getD 2 "")
    let num_loops := atoi (argv.getD 3 "")
    if keysize < 512 ∨ keysize > 8192 then
      { exit_code := 1, action := .error "Error: Key size must be between 512 and 8192 bits" }
    else if num_threads < 1 ∨ num_threads > 100 then
      { exit_code := 1, action := .error "Error: Number of threads must be between 1 and 100" }
    else if num_loops < 1 then
      { exit_code := 1, action := .error "Error: Number of loops must be at least 1" }
    else
      { exit_code := 0, action := .runRSA keysize num_threads num_loops }

/-- The function `main` of each tool. -/
def Tool.main : Tool → (String → Int) → List String → MainResult
  | .ECGenerator => ECGenerator.main
  | .RSAGenerator => RSAGenerator.main
  | .ECDSASigner => ECDSASigner.main

/-- The thread operations of the orchestrator `run`, and its last print. -/
inductive Action where
  | spawnWorker (i : Nat)
  | spawnReporter
  | joinWorker (i : Nat)
  | setDone
  | joinReporter
  | printFinal
  deriving DecidableEq, Repr

/-- The thread operations `run` performs, in program order: nothing when the curve
validation fails; otherwise the workers are started, then the reporter, then
`for (auto& t : threads) t.join()`, then `done = true`, `stats_thread.join()`
and the print of the final statistics. -/
def runActions (tool : Tool) (curve_known : Bool) (num_threads : Int) : List Action :=
  if tool.checksCurve && !curve_known then []
  else
    (List.range num_threads.toNat).map Action.spawnWorker
      ++ [Action.spawnReporter]
      ++ (List.range num_threads.toNat).map Action.joinWorker
      ++ [Action.setDone, Action.joinReporter, Action.printFinal]

/-- The thread operations of a whole process: those of the `run` that `main`
calls, if it calls one. -/
def mainActions (tool : Tool) (atoi : String → Int) (argv : List String) : List Action :=
  match (tool.main atoi argv).action with
  | .runCurve curve_name num_threads _ =>
      runActions tool (decide (curve_name ∈ curve_map_keys)) num_threads
  | .runRSA _ num_threads _ => runActions tool true num_threads
  | _ => []

/-- The states of the orchestrator named by the specification. -/
inductive Phase where
  | Idle
  | Running
  | Draining
  | Done
  deriving DecidableEq, Repr

/-- The position of a state in the order Idle, Running, Draining, Done. -/
def Phase.toNat : Phase → Nat
  | .Idle => 0
  | .Running => 1
  | .Draining => 2
  | .Done => 3

/-- The state the orchestrator is in once it has performed an operation: Running
while it starts and joins workers, Draining once the stop flag is set, Done once
the reporter is joined. -/
def Action.phase : Action → Phase
  | .spawnWorker _ => .Running
  | .spawnReporter => .Running
  | .joinWorker _ => .Running
  | .setDone => .Draining
  | .joinReporter => .Done
  | .printFinal => .Done

/-- The place of an operation in the program text of `run`. -/
def Action.rank : Action → Nat
  | .spawnWorker _ => 0
  | .spawnReporter => 1
  | .joinWorker _ => 2
  | .setDone => 3
  | .joinReporter => 4
  | .printFinal => 5

/-! ### Threads, the mutex and the single steps of the critical sections -/

/-- The threads that take `stats_mutex`: the workers, and the thread that runs
`printStats` (the reporter, and the orchestrator for the final statistics once
the reporter is joined). -/
inductive Tid where
  | worker (i : Nat)
  | reporter
  deriving DecidableEq, Repr

/-- The program points of `updateStats` while the `lock_guard` is alive: the
sanity check, `total_keys_generated++`, `total_time_microseconds += ...`, the
test of the flag, the three assignments of the first branch, the two conditional
assignments of the `else` branch, and the end of the scope, where the mutex is
released. -/
inductive UpdatePc where
  | check
  | incCount
  | addTime
  | testFirst
  | setMin
  | setMax
  | setFirst
  | lowerMin
  | raiseMax
  | unlock
  deriving DecidableEq, Repr

/-- The program points of the block of `printStats` that copies the five fields
under the mutex, and the end of the block, where the mutex is released. -/
inductive ReadPc where
  | readKeys
  | readTime
  | readMin
  | readMax
  | readFlag
  | unlock
  deriving DecidableEq, Repr

/-- A worker: the arguments of the `updateStats` calls it still has to make, and,
while it is inside `updateStats` holding the mutex, the argument and the program
point. -/
structure WorkerState where
  pending : List Nat
  pc : Option (Nat × UpdatePc)
  deriving DecidableEq, Repr

/-- The thread running `printStats`: its program point while it holds the mutex,
and the locals `total_keys`, `total_time`, `min_time`, `max_time`,
`keys_generated`. -/
structure ReporterState where
  pc : Option ReadPc
  locals : Stats
  deriving DecidableEq, Repr

/-- The state of a run: the statistics fields of the object, the owner of
`stats_mutex`, the threads, the snapshots taken so far, and the arguments of the
completed `updateStats` calls in the order in which they released the mutex. -/
structure Sys where
  shared : Stats
  mutex : Option Tid
  workers : List WorkerState
  reporter : ReporterState
  snapshots : List Stats
  serial : List Nat
  deriving DecidableEq, Repr

/-- One statement of `updateStats` on the fields, and the next program point. -/
def micro (tool : Tool) (d : Nat) (p : UpdatePc) (s : Stats) : Stats × UpdatePc :=
  match p with
  | .check => if d = 0 ∨ d > tool.ceiling then (s, .unlock) else (s, .incCount)
  | .incCount =>
      ({ s with total_keys_generated := (s.total_keys_generated + 1) % UINT64_SIZE }, .addTime)
  | .addTime =>
      ({ s with total_time_microseconds := (s.total_time_microseconds + d) % UINT64_SIZE },
        .testFirst)
  | .testFirst => if !s.first_key_generated then (s, .setMin) else (s, .lowerMin)
  | .setMin => ({ s with min_time_microseconds := d }, .setMax)
  | .setMax => ({ s with max_time_microseconds := d }, .setFirst)
  | .setFirst => ({ s with first_key_generated := true }, .unlock)
  | .lowerMin =>
      (if d < s.min_time_microseconds then { s with min_time_microseconds := d } else s,
        .raiseMax)
  | .raiseMax =>
      (if d > s.max_time_microseconds then { s with max_time_microseconds := d } else s,
        .unlock)
  | .unlock => (s, .unlock)

/-- One step of worker `i`: outside `updateStats` it enters its next call when the
mutex is free (and waits otherwise); inside, it executes one statement; at the
end of the scope it releases the mutex. -/
def stepWorker (tool : Tool) (i : Nat) (sys : Sys) : Sys :=
  match sys.workers[i]? with
  | none => sys
  | some w =>
    match w.pc with
    | none =>
      match w.pending, sys.mutex with
      | d :: rest, none =>
        { sys with
          mutex := some (Tid.worker i)
          workers := sys.workers.set i { pending := rest, pc := some (d, UpdatePc.check) } }
      | _, _ => sys
    | some (d, UpdatePc.unlock) =>
      { sys with
        mutex := none
        workers := sys.workers.set i { pending := w.pending, pc := none }
        serial := sys.serial ++ [d] }
    | some (d, p) =>
      { sys with
        shared := (micro tool d p sys.shared).1
        workers := sys.workers.set i
          { pending := w.pending, pc := some (d, (micro tool d p sys.shared).2) } }

/-- One step of the thread running `printStats`: it enters the block when the
mutex is free, copies one field per step, and at the end of the block releases
the mutex with its five locals as the snapshot. -/
def stepReporter (sys : Sys) : Sys :=
  let r := sys.reporter
  match r.pc with
  | none =>
    match sys.mutex with
    | none => { sys with mutex := some Tid.reporter, reporter := { r with pc := some .readKeys } }
    | some _ => sys
  | some .readKeys =>
    { sys with reporter :=
        { pc := some .readTime
          locals := { r.locals with total_keys_generated := sys.shared.total_keys_generated } } }
  | some .readTime =>
    { sys with reporter :=
        { pc := some .readMin
          locals :=
            { r.locals with total_time_microseconds := sys.shared.total_time_microseconds } } }
  | some .readMin =>
    { sys with reporter :=
        { pc := some .readMax
          locals := { r.locals with min_time_microseconds := sys.shared.min_time_microseconds } } }
  | some .readMax =>
    { sys with reporter :=
        { pc := some .readFlag
          locals := { r.locals with max_time_microseconds := sys.shared.max_time_microseconds } } }
  | some .readFlag =>
    { sys with reporter :=
        { pc := some .unlock
          locals := { r.locals with first_key_generated := sys.shared.first_key_generated } } }
  | some .unlock =>
    { sys with
      mutex := none
      reporter := { r with pc := none }
      snapshots := sys.snapshots ++ [r.locals] }

/-- One step of the thread chosen by the scheduler. -/
def step (tool : Tool) (sys : Sys) (t : Tid) : Sys :=
  match t with
  | .worker i => stepWorker tool i sys
  | .reporter => stepReporter sys

/-- The run under a schedule: the threads step in the order the scheduler picks
them, starting from the freshly constructed object, with `ws` the calls each
worker is going to make. -/
def Sys.init (ws : List (List Nat)) : Sys :=
  { shared := Stats.fresh
    mutex := none
    workers := ws.map (fun calls => { pending := calls, pc := none })
    reporter := { pc := none, locals := Stats.fresh }
    snapshots := []
    serial := [] }

/-- The state reached from `Sys.init ws` under the schedule `sched`. -/
def exec (tool : Tool) (ws : List (List Nat)) (sched : List Tid) : Sys :=
  sched.foldl (step tool) (Sys.init ws)

/-- The fields expected at a program point of `updateStats(d)` entered in the
state `base`. -/
def Mid (tool : Tool) (p : UpdatePc) (base : Stats) (d : Nat) (shared : Stats) : Prop :=
  match p with
  | .check => shared = base
  | .incCount => passes tool d = true ∧ shared = base
  | .addTime => passes tool d = true ∧ shared =
      { base with total_keys_generated := (base.total_keys_generated + 1) % UINT64_SIZE }
  | .testFirst => passes tool d = true ∧ shared =
      { base with
        total_keys_generated := (base.total_keys_generated + 1) % UINT64_SIZE
        total_time_microseconds := (base.total_time_microseconds + d) % UINT64_SIZE }
  | .setMin => passes tool d = true ∧ base.first_key_generated = false ∧ shared =
      { base with
        total_keys_generated := (base.total_keys_generated + 1) % UINT64_SIZE
        total_time_microseconds := (base.total_time_microseconds + d) % UINT64_SIZE }
  | .setMax => passes tool d = true ∧ base.first_key_generated = false ∧ shared =
      { base with
        total_keys_generated := (base.total_keys_generated + 1) % UINT64_SIZE
        total_time_microseconds := (base.total_time_microseconds + d) % UINT64_SIZE
        min_time_microseconds := d }
  | .setFirst => passes tool d = true ∧ base.first_key_generated = false ∧ shared =
      { base with
        total_keys_generated := (base.total_keys_generated + 1) % UINT64_SIZE
        total_time_microseconds := (base.total_time_microseconds + d) % UINT64_SIZE
        min_time_microseconds := d
        max_time_microseconds := d }
  | .lowerMin => passes tool d = true ∧ base.first_key_generated = true ∧ shared =
      { base with
        total_keys_generated := (base.total_keys_generated + 1) % UINT64_SIZE
        total_time_microseconds := (base.total_time_microseconds + d) % UINT64_SIZE }
  | .raiseMax => passes tool d = true ∧ base.first_key_generated = true ∧ shared =
      { base with
        total_keys_generated := (base.total_keys_generated + 1) % UINT64_SIZE
        total_time_microseconds := (base.total_time_microseconds + d) % UINT64_SIZE
        min_time_microseconds := min base.min_time_microseconds d }
  | .unlock => shared = updateStats tool base d

/-- The locals copied so far at a program point of the block of `printStats`. -/
def ReadSoFar (p : ReadPc) (locals shared : Stats) : Prop :=
  match p with
  | .readKeys => True
  | .readTime => locals.total_keys_generated = shared.total_keys_generated
  | .readMin => locals.total_keys_generated = shared.total_keys_generated
      ∧ locals.total_time_microseconds = shared.total_time_microseconds
  | .readMax => locals.total_keys_generated = shared.total_keys_generated
      ∧ locals.total_time_microseconds = shared.total_time_microseconds
      ∧ locals.min_time_microseconds = shared.min_time_microseconds
  | .readFlag => locals.total_keys_generated = shared.total_keys_generated
      ∧ locals.total_time_microseconds = shared.total_time_microseconds
      ∧ locals.min_time_microseconds = shared.min_time_microseconds
      ∧ locals.max_time_microseconds = shared.max_time_microseconds
  | .unlock => locals = shared

/-- What the owner of the mutex says about the threads and the fields. -/
def LockInv (tool : Tool) (sys : Sys) : Prop :=
  match sys.mutex with
  | none =>
      sys.shared = runStats tool sys.serial
      ∧ (∀ (j : Nat) (w : WorkerState), sys.workers[j]? = some w → w.pc = none)
      ∧ sys.reporter.pc = none
  | some (.worker i) =>
      sys.reporter.pc = none
      ∧ (∀ (j : Nat) (w : WorkerState), sys.workers[j]? = some w → j ≠ i → w.pc = none)
      ∧ ∃ w d p, sys.workers[i]? = some w ∧ w.pc = some (d, p)
          ∧ Mid tool p (runStats tool sys.serial) d sys.shared
  | some .reporter =>
      sys.shared = runStats tool sys.serial
      ∧ (∀ (j : Nat) (w : WorkerState), sys.workers[j]? = some w → w.pc = none)
      ∧ ∃ p, sys.reporter.pc = some p ∧ ReadSoFar p sys.reporter.locals sys.shared

/-- The invariant of a run: the mutex discipline, and every snapshot taken so far
is the state after a prefix of the completed calls. -/
def Inv (tool : Tool) (sys : Sys) : Prop :=
  LockInv tool sys
  ∧ ∀ snap ∈ sys.snapshots,
      ∃ m, m ≤ sys.serial.length ∧ snap = runStats tool (sys.serial.take m)

/-- The calls a worker has not completed: the one it is executing, if any, and
those still to make. -/
def WorkerState.remaining (w : WorkerState) : List Nat :=
  match w.pc with
  | none => w.pending
  | some (d, _) => d :: w.pending

/-- The completed calls followed by any merge of the calls not completed are a
merge of the calls `ws` of the workers. -/
def SerialInv (ws : List (List Nat)) (sys : Sys) : Prop :=
  ∀ l, Interleaving (sys.workers.map WorkerState.remaining) l → Interleaving ws (sys.serial ++ l)

/-- The value of `std::atoi` on a string of decimal digits (that fits an `int`);
used to run `main` on examples. -/
def atoiDigits (s : String) : Int :=
  ((s.data.foldl (fun acc c => acc * 10 + (c.toNat - 48)) 0 : Nat) : Int)

/-- One iteration of the timed loop without the guard `duration.count() > 0`, as
the claim of redundancy words it: a successful invocation always calls
`updateStats(static_cast<uint64_t>(c))`. -/
def loopBodyUnguarded (tool : Tool) (s : Stats) (o : Outcome) : Stats :=
  match o with
  | none => s
  | some c => updateStats tool s (toUInt64 c)

/-- The values of a C++ `int` (32 bits). -/
def isInt32 (v : Int) : Prop := -(2 ^ 31) ≤ v ∧ v < 2 ^ 31

instance (v : Int) : Decidable (isInt32 v) :=
  inferInstanceAs (Decidable (-(2 ^ 31) ≤ v ∧ v < 2 ^ 31))

/-- The 32-bit two's complement value of an integer: what an `int` operation
leaves on the supported platforms when its mathematical result does not fit
(the C++ standard leaves signed overflow undefined). -/
def wrapInt32 (v : Int) : Int := (v + 2 ^ 31) % 2 ^ 32 - 2 ^ 31

/-- The number `(num_threads * num_loops)` streamed by `run` after
"Total keys to generate: " (in the signer "Total signatures to generate: "):
a product of two `int`s, computed in `int`. -/
def runHeaderTotal (num_threads num_loops : Int) : Int :=
  wrapInt32 (num_threads * num_loops)

/-- The conversion `std::chrono::duration_cast<std::chrono::seconds>` of a
`steady_clock` difference of `elapsed_ns` nanoseconds (the tick of
`steady_clock` in libstdc++ and libc++): the C++ integer division by 10^9,
which truncates toward zero. -/
def durationCastSeconds (elapsed_ns : Int) : Int := Int.tdiv elapsed_ns 1000000000

/-- The method `printStats` called when `steady_clock::now()` is `elapsed_ns`
nanoseconds after `start_time`: its first two statements compute
`elapsed = duration_cast<seconds>(current_time - start_time)`, and the rest of
the method uses `elapsed.count()` only. -/
def printStatsAt {α : Type} (F : FloatOps α) (s : Stats) (elapsed_ns : Int) : PrintStats α :=
  printStats F s (durationCastSeconds elapsed_ns)

/-! ## Basic facts about `updateStats` -/

theorem passes_iff (tool : Tool) (d : Nat) :
    passes tool d = true ↔ 1 ≤ d ∧ d ≤ tool.ceiling := by
  simp [passes]
  omega

theorem passes_eq_false_iff (tool : Tool) (d : Nat) :
    passes tool d = false ↔ d = 0 ∨ d > tool.ceiling := by
  simp [passes]
  omega

theorem updateStats_of_not_passes (tool : Tool) (s : Stats) (d : Nat)
    (h : passes tool d = false) : updateStats tool s d = s := by
  have h1 : d = 0 ∨ d > tool.ceiling := (passes_eq_false_iff tool d).1 h
  simp [updateStats, h1]

/-- The five fields after an accepted sample. -/
theorem updateStats_of_passes (tool : Tool) (s : Stats) (d : Nat)
    (h : passes tool d = true) :
    updateStats tool s d =
      { total_keys_generated := (s.total_keys_generated + 1) % UINT64_SIZE
        total_time_microseconds := (s.total_time_microseconds + d) % UINT64_SIZE
        min_time_microseconds :=
          if s.first_key_generated then min s.min_time_microseconds d else d
        max_time_microseconds :=
          if s.first_key_generated then max s.max_time_microseconds d else d
        first_key_generated := true } := by
  have h1 : ¬ (d = 0 ∨ d > tool.ceiling) := by
    have := (passes_iff tool d).1 h
    omega
  cases hf : s.first_key_generated
  · simp [updateStats, h1, hf]
  · by_cases h2 : d < s.min_time_microseconds <;> by_cases h3 : d > s.max_time_microseconds
    all_goals simp [updateStats, h1, hf, h2, h3]
    all_goals omega

theorem applyAll_append (tool : Tool) (s : Stats) (l₁ l₂ : List Nat) :
    applyAll tool s (l₁ ++ l₂) = applyAll tool (applyAll tool s l₁) l₂ := by
  simp [applyAll, List.foldl_append]

theorem runStats_append (tool : Tool) (l₁ l₂ : List Nat) :
    runStats tool (l₁ ++ l₂) = applyAll tool (runStats tool l₁) l₂ := by
  simp [runStats, applyAll_append]

theorem runStats_snoc (tool : Tool) (l : List Nat) (d : Nat) :
    runStats tool (l ++ [d]) = updateStats tool (runStats tool l) d := by
  simp [runStats, applyAll, List.foldl_append]

/-! ## Closed form of the state after a sequence of calls -/

theorem runStats_count (tool : Tool) (l : List Nat) :
    (runStats tool l).total_keys_generated = l.countP (passes tool) % UINT64_SIZE := by
  induction l using List.reverseRecOn with
  | nil => simp [runStats, applyAll, Stats.fresh]
  | append_singleton l d ih =>
    rw [runStats_snoc, List.countP_append]
    cases h : passes tool d
    · rw [updateStats_of_not_passes tool _ d h, ih]
      simp [List.countP_cons, h]
    · rw [updateStats_of_passes tool _ d h]
      simp only [ih]
      simp [List.countP_cons, h, Nat.add_mod]

theorem runStats_sum (tool : Tool) (l : List Nat) :
    (runStats tool l).total_time_microseconds = (l.filter (passes tool)).sum % UINT64_SIZE := by
  induction l using List.reverseRecOn with
  | nil => simp [runStats, applyAll, Stats.fresh]
  | append_singleton l d ih =>
    rw [runStats_snoc, List.filter_append, List.sum_append]
    cases h : passes tool d
    · rw [updateStats_of_not_passes tool _ d h, ih]
      simp [List.filter_cons, h]
    · rw [updateStats_of_passes tool _ d h]
      simp only [ih]
      simp [List.filter_cons, h, Nat.add_mod]

theorem runStats_first (tool : Tool) (l : List Nat) :
    (runStats tool l).first_key_generated = l.any (passes tool) := by
  induction l using List.reverseRecOn with
  | nil => simp [runStats, applyAll, Stats.fresh]
  | append_singleton l d ih =>
    rw [runStats_snoc, List.any_append]
    cases h : passes tool d
    · rw [updateStats_of_not_passes tool _ d h, ih]
      simp [h]
    · rw [updateStats_of_passes tool _ d h]
      simp [h]

/-- Before the first accepted sample `min` and `max` still hold the constructor's 0. -/
theorem runStats_min_max_of_not_first (tool : Tool) (l : List Nat)
    (hf : (runStats tool l).first_key_generated = false) :
    (runStats tool l).min_time_microseconds = 0 ∧ (runStats tool l).max_time_microseconds = 0 := by
  induction l using List.reverseRecOn with
  | nil => simp [runStats, applyAll, Stats.fresh]
  | append_singleton l d ih =>
    rw [runStats_snoc] at hf ⊢
    cases h : passes tool d
    · rw [updateStats_of_not_passes tool _ d h] at hf ⊢
      exact ih hf
    · rw [updateStats_of_passes tool _ d h] at hf
      simp at hf

/-- After an accepted sample `min` is the least accepted sample of the sequence. -/
theorem runStats_min_spec (tool : Tool) (l : List Nat)
    (hf : (runStats tool l).first_key_generated = true) :
    ((runStats tool l).min_time_microseconds ∈ l
      ∧ passes tool (runStats tool l).min_time_microseconds = true)
    ∧ ∀ d ∈ l, passes tool d = true → (runStats tool l).min_time_microseconds ≤ d := by
  induction l using List.reverseRecOn with
  | nil => simp [runStats, applyAll, Stats.fresh] at hf
  | append_singleton l d ih =>
    rw [runStats_snoc] at hf ⊢
    cases h : passes tool d
    · rw [updateStats_of_not_passes tool _ d h] at hf ⊢
      obtain ⟨⟨h1, h2⟩, h3⟩ := ih hf
      refine ⟨⟨List.mem_append_left _ h1, h2⟩, ?_⟩
      intro e he hp
      rcases List.mem_append.1 he with he | he
      · exact h3 e he hp
      · simp at he
        subst he
        simp [h] at hp
    · rw [updateStats_of_passes tool _ d h]
      cases hf0 : (runStats tool l).first_key_generated
      · have hany : l.any (passes tool) = false := by rw [← runStats_first, hf0]
        simp only [Bool.false_eq_true, if_false]
        refine ⟨⟨by simp, h⟩, ?_⟩
        intro e he hp
        rcases List.mem_append.1 he with he | he
        · have : passes tool e = false := by
            simp only [List.any_eq_false] at hany
            simpa using hany e he
          simp [this] at hp
        · simp at he
          omega
      · obtain ⟨⟨h1, h2⟩, h3⟩ := ih hf0
        simp only [if_true]
        refine ⟨?_, ?_⟩
        · rcases Nat.le_total (runStats tool l).min_time_microseconds d with hle | hle
          · rw [Nat.min_eq_left hle]
            exact ⟨List.mem_append_left _ h1, h2⟩
          · rw [Nat.min_eq_right hle]
            exact ⟨by simp, h⟩
        · intro e he hp
          rcases List.mem_append.1 he with he | he
          · exact le_trans (Nat.min_le_left _ _) (h3 e he hp)
          · simp at he
            subst he
            exact Nat.min_le_right _ _

/-- After an accepted sample `max` is the greatest accepted sample of the sequence. -/
theorem runStats_max_spec (tool : Tool) (l : List Nat)
    (hf : (runStats tool l).first_key_generated = true) :
    ((runStats tool l).max_time_microseconds ∈ l
      ∧ passes tool (runStats tool l).max_time_microseconds = true)
    ∧ ∀ d ∈ l, passes tool d = true → d ≤ (runStats tool l).max_time_microseconds := by
  induction l using List.reverseRecOn with
  | nil => simp [runStats, applyAll, Stats.fresh] at hf
  | append_singleton l d ih =>
    rw [runStats_snoc] at hf ⊢
    cases h : passes tool d
    · rw [updateStats_of_not_passes tool _ d h] at hf ⊢
      obtain ⟨⟨h1, h2⟩, h3⟩ := ih hf
      refine ⟨⟨List.mem_append_left _ h1, h2⟩, ?_⟩
      intro e he hp
      rcases List.mem_append.1 he with he | he
      · exact h3 e he hp
      · simp at he
        subst he
        simp [h] at hp
    · rw [updateStats_of_passes tool _ d h]
      cases hf0 : (runStats tool l).first_key_generated
      · have hany : l.any (passes tool) = false := by rw [← runStats_first, hf0]
        simp only [Bool.false_eq_true, if_false]
        refine ⟨⟨by simp, h⟩, ?_⟩
        intro e he hp
        rcases List.mem_append.1 he with he | he
        · have : passes tool e = false := by
            simp only [List.any_eq_false] at hany
            simpa using hany e he
          simp [this] at hp
        · simp at he
          omega
      · obtain ⟨⟨h1, h2⟩, h3⟩ := ih hf0
        simp only [if_true]
        refine ⟨?_, ?_⟩
        · rcases Nat.le_total (runStats tool l).max_time_microseconds d with hle | hle
          · rw [Nat.max_eq_right hle]
            exact ⟨by simp, h⟩
          · rw [Nat.max_eq_left hle]
            exact ⟨List.mem_append_left _ h1, h2⟩
        · intro e he hp
          rcases List.mem_append.1 he with he | he
          · exact le_trans (h3 e he hp) (Nat.le_max_left _ _)
          · simp at he
            subst he
            exact Nat.le_max_right _ _

/-! ## Order independence -/

/-- The final state depends only on the multiset of the calls. -/
theorem runStats_eq_of_perm (tool : Tool) {l₁ l₂ : List Nat} (h : l₁.Perm l₂) :
    runStats tool l₁ = runStats tool l₂ := by
  have hfirst : (runStats tool l₁).first_key_generated = (runStats tool l₂).first_key_generated := by
    rw [runStats_first, runStats_first]
    cases h2 : l₂.any (passes tool)
    · simp only [List.any_eq_false] at h2 ⊢
      intro x hx
      exact h2 x (h.mem_iff.1 hx)
    · simp only [List.any_eq_true] at h2 ⊢
      obtain ⟨x, hx, hp⟩ := h2
      exact ⟨x, h.mem_iff.2 hx, hp⟩
  apply Stats.ext
  · rw [runStats_count, runStats_count, h.countP_eq]
  · rw [runStats_sum, runStats_sum, (h.filter (passes tool)).sum_eq]
  · cases hf : (runStats tool l₂).first_key_generated
    · rw [(runStats_min_max_of_not_first tool l₂ hf).1,
        (runStats_min_max_of_not_first tool l₁ (hfirst.trans hf)).1]
    · obtain ⟨⟨m1, p1⟩, b1⟩ := runStats_min_spec tool l₁ (hfirst.trans hf)
      obtain ⟨⟨m2, p2⟩, b2⟩ := runStats_min_spec tool l₂ hf
      exact Nat.le_antisymm (b1 _ (h.mem_iff.2 m2) p2) (b2 _ (h.mem_iff.1 m1) p1)
  · cases hf : (runStats tool l₂).first_key_generated
    · rw [(runStats_min_max_of_not_first tool l₂ hf).2,
        (runStats_min_max_of_not_first tool l₁ (hfirst.trans hf)).2]
    · obtain ⟨⟨m1, p1⟩, b1⟩ := runStats_max_spec tool l₁ (hfirst.trans hf)
      obtain ⟨⟨m2, p2⟩, b2⟩ := runStats_max_spec tool l₂ hf
      exact Nat.le_antisymm (b2 _ (h.mem_iff.1 m1) p1) (b1 _ (h.mem_iff.2 m2) p2)
  · exact hfirst

/-- The state after `n > 0` calls with one accepted duration `d`. -/
theorem runStats_replicate (tool : Tool) (n d : Nat) (hn : 0 < n) (hd : passes tool d = true) :
    runStats tool (List.replicate n d) =
      { total_keys_generated := n % UINT64_SIZE
        total_time_microseconds := (n * d) % UINT64_SIZE
        min_time_microseconds := d
        max_time_microseconds := d
        first_key_generated := true } := by
  have hf : (runStats tool (List.replicate n d)).first_key_generated = true := by
    rw [runStats_first, List.any_eq_true]
    exact ⟨d, by simp [List.mem_replicate]; omega, hd⟩
  apply Stats.ext
  · simp [runStats_count, List.countP_replicate, hd]
  · simp [runStats_sum, List.filter_replicate, hd, List.sum_replicate]
  · exact List.eq_of_mem_replicate (runStats_min_spec tool _ hf).1.1
  · exact List.eq_of_mem_replicate (runStats_max_spec tool _ hf).1.1
  · exact hf

/-! ## Interleavings -/

theorem Interleaving.perm {α : Type} {ws : List (List α)} {l : List α}
    (h : Interleaving ws l) : l.Perm ws.flatten := by
  induction h with
  | done ws hall =>
    have : ws.flatten = [] := by
      rw [List.flatten_eq_nil_iff]
      exact hall
    rw [this]
  | step pre post d w l _ ih =>
    simp only [List.flatten_append, List.flatten_cons, List.cons_append] at ih ⊢
    exact (List.Perm.cons d ih).trans List.perm_middle.symm

theorem Interleaving.cons_nil {α : Type} {ws : List (List α)} {l : List α}
    (h : Interleaving ws l) : Interleaving ([] :: ws) l := by
  induction h with
  | done ws hall =>
    apply Interleaving.done
    intro w hw
    rcases List.mem_cons.1 hw with hw | hw
    · exact hw
    · exact hall w hw
  | step pre post d w l _ ih =>
    exact Interleaving.step ([] :: pre) post d w l ih

/-- The workers run one after the other: a merge always exists. -/
theorem Interleaving.sequential {α : Type} (ws : List (List α)) :
    Interleaving ws ws.flatten := by
  induction ws with
  | nil => exact Interleaving.done [] (by simp)
  | cons w ws ih =>
    induction w with
    | nil => simpa using ih.cons_nil
    | cons d w ihw => exact Interleaving.step [] ws d (w) (w ++ ws.flatten) (by simpa using ihw)

/-! ## Counting -/

theorem passes_eq_decide (tool : Tool) :
    passes tool = fun d => decide (1 ≤ d ∧ d ≤ tool.ceiling) := by
  funext d
  rw [Bool.eq_iff_iff, passes_iff]
  simp

/-- As long as fewer than `2^64` calls were made the counter has not wrapped. -/
theorem runStats_count_of_length_lt (tool : Tool) (l : List Nat) (h : l.length < UINT64_SIZE) :
    (runStats tool l).total_keys_generated = l.countP (passes tool) := by
  rw [runStats_count]
  exact Nat.mod_eq_of_lt (lt_of_le_of_lt (List.countP_le_length _) h)

/-- One loop iteration is the `updateStats` call it issues, if it issues one. -/
theorem loopBody_eq (tool : Tool) (s : Stats) (o : Outcome) :
    loopBody tool s o = applyAll tool s (loopCall o).toList := by
  cases o with
  | none => rfl
  | some c =>
    by_cases hc : c > 0
    · simp [loopBody, loopCall, hc, applyAll]
    · simp [loopBody, loopCall, hc, applyAll]

/-- A worker run alone applies exactly its sequence of calls, in order. -/
theorem workerThread_eq_applyAll (tool : Tool) (setup_ok : Bool) (op : Nat → Outcome)
    (num_loops : Int) (s : Stats) :
    workerThread tool setup_ok op num_loops s
      = applyAll tool s (workerCalls setup_ok op num_loops) := by
  unfold workerThread workerCalls
  cases setup_ok
  · rfl
  · simp only [Bool.not_true, Bool.false_eq_true, if_false]
    generalize List.range num_loops.toNat = is
    induction is generalizing s with
    | nil => rfl
    | cons i is ih =>
      rw [List.foldl_cons, ih, loopBody_eq, List.filterMap_cons]
      cases h : loopCall (op i) <;> simp [applyAll]

/-! ## Rejection -/

/-- C1. In each of the three tools a duration that is zero or above the tool's
ceiling (10,000,000 for the EC generator, 3,600,000,000 for the RSA generator,
1,000,000 for the signer) is rejected: `updateStats` returns the state it was
given, so count, sum, min, max and the flag are all unchanged. -/
theorem updateStats_rejected_unchanged (s : Stats) (d : Nat) :
    ((d = 0 ∨ d > 10000000) → ECGenerator.updateStats s d = s)
    ∧ ((d = 0 ∨ d > 3600000000) → RSAGenerator.updateStats s d = s)
    ∧ ((d = 0 ∨ d > 1000000) → ECDSASigner.updateStats s d = s) := by
  refine ⟨fun h => ?_, fun h => ?_, fun h => ?_⟩
  · exact updateStats_of_not_passes Tool.ECGenerator s d
      ((passes_eq_false_iff _ _).2 (by simpa [Tool.ceiling] using h))
  · exact updateStats_of_not_passes Tool.RSAGenerator s d
      ((passes_eq_false_iff _ _).2 (by simpa [Tool.ceiling] using h))
  · exact updateStats_of_not_passes Tool.ECDSASigner s d
      ((passes_eq_false_iff _ _).2 (by simpa [Tool.ceiling] using h))

/-- C1 at concrete inputs: one above each ceiling, and zero. -/
theorem updateStats_rejected_unchanged_witness :
    ECGenerator.updateStats ⟨3, 700, 200, 300, true⟩ 10000001 = ⟨3, 700, 200, 300, true⟩
    ∧ RSAGenerator.updateStats ⟨3, 700, 200, 300, true⟩ 3600000001 = ⟨3, 700, 200, 300, true⟩
    ∧ ECDSASigner.updateStats ⟨3, 700, 200, 300, true⟩ 0 = ⟨3, 700, 200, 300, true⟩ :=
  ⟨(updateStats_rejected_unchanged ⟨3, 700, 200, 300, true⟩ 10000001).1 (Or.inr (by decide)),
   (updateStats_rejected_unchanged ⟨3, 700, 200, 300, true⟩ 3600000001).2.1 (Or.inr (by decide)),
   (updateStats_rejected_unchanged ⟨3, 700, 200, 300, true⟩ 0).2.2 (Or.inl rfl)⟩

/-! ## Count -/

/-- C2. For per-worker duration sequences `ws` and any two merges `l`, `l'` of
them, the count after applying `updateStats` to `l` from the fresh state is the
number of durations `d` of `l` with `1 ≤ d ≤ ceiling`, and it is the same for `l'`.
The sequence is shorter than `2^64`, the range of the counter: a run makes at most
`num_threads * num_loops` calls, a product of two `int`s (`runCalls_length_lt`). -/
theorem count_eq_number_accepted (tool : Tool) (ws : List (List Nat)) (l l' : List Nat)
    (hlen : l.length < UINT64_SIZE) (h : Interleaving ws l) (h' : Interleaving ws l') :
    (runStats tool l).total_keys_generated
        = l.countP (fun d => decide (1 ≤ d ∧ d ≤ tool.ceiling))
    ∧ (runStats tool l').total_keys_generated = (runStats tool l).total_keys_generated := by
  refine ⟨?_, ?_⟩
  · rw [runStats_count_of_length_lt tool l hlen, passes_eq_decide]
  · rw [runStats_eq_of_perm tool (h'.perm.trans h.perm.symm)]

/-- C2 at two workers `[5, 0]` and `[20000000, 7]` of the EC generator, merged in
two different ways: both merges count the two accepted durations 5 and 7. -/
theorem count_eq_number_accepted_witness :
    (runStats Tool.ECGenerator [5, 20000000, 0, 7]).total_keys_generated
        = [5, 20000000, 0, 7].countP (fun d => decide (1 ≤ d ∧ d ≤ Tool.ECGenerator.ceiling))
    ∧ (runStats Tool.ECGenerator [20000000, 5, 7, 0]).total_keys_generated
        = (runStats Tool.ECGenerator [5, 20000000, 0, 7]).total_keys_generated :=
  count_eq_number_accepted Tool.ECGenerator [[5, 0], [20000000, 7]]
    [5, 20000000, 0, 7] [20000000, 5, 7, 0] (by decide)
    (Interleaving.step [] [[20000000, 7]] 5 [0] _
      (Interleaving.step [[0]] [] 20000000 [7] _
        (Interleaving.step [] [[7]] 0 [] _
          (Interleaving.step [[]] [] 7 [] _
            (Interleaving.done _ (by decide))))))
    (Interleaving.step [[5, 0]] [] 20000000 [7] _
      (Interleaving.step [] [[7]] 5 [0] _
        (Interleaving.step [[0]] [] 7 [] _
          (Interleaving.step [] [[]] 0 [] _
            (Interleaving.done _ (by decide))))))

/-! ## Sum -/

/-- C3, as stated, fails on the RSA generator: 100 threads with 51,240,956 loops
each (a configuration `main` accepts) whose every key generation is measured at
the ceiling of 3,600,000,000 microseconds make 5,124,095,600 accepted calls; the
arithmetic total exceeds `2^64` and the stored sum has wrapped. -/
theorem sum_ne_total_accepted_rsa :
    (runStats Tool.RSAGenerator (List.replicate 5124095600 3600000000)).total_time_microseconds
        = 86290448384
    ∧ ((List.replicate 5124095600 3600000000).filter (passes Tool.RSAGenerator)).sum
        = 18446744160000000000
    ∧ (runStats Tool.RSAGenerator (List.replicate 5124095600 3600000000)).total_time_microseconds
        ≠ ((List.replicate 5124095600 3600000000).filter (passes Tool.RSAGenerator)).sum := by
  have hp : passes Tool.RSAGenerator 3600000000 = true := by decide
  have h1 : (runStats Tool.RSAGenerator
      (List.replicate 5124095600 3600000000)).total_time_microseconds = 86290448384 := by
    rw [runStats_replicate Tool.RSAGenerator 5124095600 3600000000 (by decide) hp]
    decide
  have h2 : ((List.replicate 5124095600 3600000000).filter (passes Tool.RSAGenerator)).sum
      = 18446744160000000000 := by
    rw [List.filter_replicate, if_pos hp, List.sum_replicate, smul_eq_mul]
  refine ⟨h1, h2, ?_⟩
  rw [h1, h2]
  decide

/-- C3, amended. For every sequence of durations applied from the fresh state the
stored sum is the arithmetic total of the durations that passed the sanity
filter, reduced modulo `2^64`; rejected durations contribute nothing, and the
stored sum is the total itself whenever the total is below `2^64`. -/
theorem sum_eq_total_accepted_mod (tool : Tool) (l : List Nat) :
    (runStats tool l).total_time_microseconds
        = (l.filter (passes tool)).sum % UINT64_SIZE
    ∧ ((l.filter (passes tool)).sum < UINT64_SIZE →
        (runStats tool l).total_time_microseconds = (l.filter (passes tool)).sum) := by
  refine ⟨runStats_sum tool l, fun h => ?_⟩
  rw [runStats_sum, Nat.mod_eq_of_lt h]

/-- C3, amended, at the signer: 0 and 1,000,001 are rejected, 4 and 1,000,000 add up. -/
theorem sum_eq_total_accepted_mod_witness :
    (runStats Tool.ECDSASigner [4, 0, 1000001, 1000000]).total_time_microseconds = 1000004 :=
  (sum_eq_total_accepted_mod Tool.ECDSASigner [4, 0, 1000001, 1000000]).2 (by decide)

/-! ## Minimum and maximum -/

/-- C4. After every prefix of a sequence `l` of calls from the fresh state (its
first `n` calls, for every `n`), the stored min is at most every accepted
duration of the prefix and every accepted duration of the prefix is at most the
stored max; and whenever the flag is set, min ≤ max. -/
theorem min_le_accepted_le_max (tool : Tool) (l : List Nat) (n : Nat) :
    (∀ d ∈ l.take n, passes tool d = true →
        (runStats tool (l.take n)).min_time_microseconds ≤ d
        ∧ d ≤ (runStats tool (l.take n)).max_time_microseconds)
    ∧ ((runStats tool (l.take n)).first_key_generated = true →
        (runStats tool (l.take n)).min_time_microseconds
          ≤ (runStats tool (l.take n)).max_time_microseconds) := by
  refine ⟨?_, ?_⟩
  · intro d hd hp
    have hf : (runStats tool (l.take n)).first_key_generated = true := by
      rw [runStats_first, List.any_eq_true]
      exact ⟨d, hd, hp⟩
    exact ⟨(runStats_min_spec tool _ hf).2 d hd hp, (runStats_max_spec tool _ hf).2 d hd hp⟩
  · intro hf
    obtain ⟨⟨hm, hpm⟩, _⟩ := runStats_min_spec tool (l.take n) hf
    exact (runStats_max_spec tool (l.take n) hf).2 _ hm hpm

/-- C4 after the first three calls of `[8, 0, 3, 5, 2]` on the EC generator: the
accepted duration 3 lies between the stored min and max, and min ≤ max. -/
theorem min_le_accepted_le_max_witness :
    ((runStats Tool.ECGenerator ([8, 0, 3, 5, 2].take 3)).min_time_microseconds ≤ 3
      ∧ 3 ≤ (runStats Tool.ECGenerator ([8, 0, 3, 5, 2].take 3)).max_time_microseconds)
    ∧ (runStats Tool.ECGenerator ([8, 0, 3, 5, 2].take 3)).min_time_microseconds
        ≤ (runStats Tool.ECGenerator ([8, 0, 3, 5, 2].take 3)).max_time_microseconds :=
  ⟨(min_le_accepted_le_max Tool.ECGenerator [8, 0, 3, 5, 2] 3).1 3 (by decide) (by decide),
   (min_le_accepted_le_max Tool.ECGenerator [8, 0, 3, 5, 2] 3).2 (by decide)⟩

/-- C5. For a non-empty collection `l` of durations that all pass the sanity
filter, applied in any order `l'` from the fresh state, count is the number of
durations, min is the minimum of the collection and max is its maximum (both
attained).  The collection has fewer than `2^64` members, the range of the
counter; the spec's instance is a collection of 50 * 1000 = 50000 members. -/
theorem count_min_max_exact (tool : Tool) (l l' : List Nat) (hne : l ≠ [])
    (hall : ∀ d ∈ l, passes tool d = true) (hlen : l.length < UINT64_SIZE)
    (hperm : l'.Perm l) :
    (runStats tool l').total_keys_generated = l.length
    ∧ l.min? = some (runStats tool l').min_time_microseconds
    ∧ l.max? = some (runStats tool l').max_time_microseconds := by
  rw [runStats_eq_of_perm tool hperm]
  obtain ⟨a, ha⟩ := List.exists_mem_of_ne_nil l hne
  have hf : (runStats tool l).first_key_generated = true := by
    rw [runStats_first, List.any_eq_true]
    exact ⟨a, ha, hall a ha⟩
  refine ⟨?_, ?_, ?_⟩
  · rw [runStats_count_of_length_lt tool l hlen, List.countP_eq_length]
    exact hall
  · rw [List.min?_eq_some_iff']
    obtain ⟨⟨hm, _⟩, hb⟩ := runStats_min_spec tool l hf
    exact ⟨hm, fun d hd => hb d hd (hall d hd)⟩
  · rw [List.max?_eq_some_iff']
    obtain ⟨⟨hm, _⟩, hb⟩ := runStats_max_spec tool l hf
    exact ⟨hm, fun d hd => hb d hd (hall d hd)⟩

/-- C5 at the collection 7, 3, 9, 4 applied in the order 9, 4, 7, 3. -/
theorem count_min_max_exact_witness :
    (runStats Tool.ECDSASigner [9, 4, 7, 3]).total_keys_generated = [7, 3, 9, 4].length
    ∧ [7, 3, 9, 4].min? = some (runStats Tool.ECDSASigner [9, 4, 7, 3]).min_time_microseconds
    ∧ [7, 3, 9, 4].max? = some (runStats Tool.ECDSASigner [9, 4, 7, 3]).max_time_microseconds :=
  count_min_max_exact Tool.ECDSASigner [7, 3, 9, 4] [9, 4, 7, 3] (by decide) (by decide)
    (by decide) (by decide)

/-! ## Order independence and the flag -/

/-- C6. Folding `updateStats` over a list and over any permutation of it, from
the same fresh state, gives the same state: count, sum, min, max and flag agree. -/
theorem final_state_order_independent (tool : Tool) (l l' : List Nat) (hperm : l'.Perm l) :
    runStats tool l' = runStats tool l ∧
    (runStats tool l').total_keys_generated = (runStats tool l).total_keys_generated
    ∧ (runStats tool l').total_time_microseconds = (runStats tool l).total_time_microseconds
    ∧ (runStats tool l').min_time_microseconds = (runStats tool l).min_time_microseconds
    ∧ (runStats tool l').max_time_microseconds = (runStats tool l).max_time_microseconds
    ∧ (runStats tool l').first_key_generated = (runStats tool l).first_key_generated := by
  have h := runStats_eq_of_perm tool hperm
  exact ⟨h, by rw [h], by rw [h], by rw [h], by rw [h], by rw [h]⟩

/-- C6 at a list with rejected entries and its reversal. -/
theorem final_state_order_independent_witness :
    runStats Tool.RSAGenerator [3600000001, 12, 0, 5, 3600000000]
      = runStats Tool.RSAGenerator [3600000000, 5, 0, 12, 3600000001] :=
  (final_state_order_independent Tool.RSAGenerator [3600000000, 5, 0, 12, 3600000001]
    [3600000001, 12, 0, 5, 3600000000] (by decide)).1

/-- C7. In every state reached from the fresh state by a sequence of
`updateStats` calls, count is 0 exactly when the flag is false.  The sequence is
shorter than `2^64`, the range of the counter, as in every run
(`runCalls_length_lt`). -/
theorem count_zero_iff_not_initialized (tool : Tool) (l : List Nat)
    (hlen : l.length < UINT64_SIZE) :
    (runStats tool l).total_keys_generated = 0
      ↔ (runStats tool l).first_key_generated = false := by
  rw [runStats_count_of_length_lt tool l hlen, runStats_first, List.countP_eq_zero,
    List.any_eq_false]

/-- C7 at a sequence of rejected calls only and at one with an accepted call. -/
theorem count_zero_iff_not_initialized_witness :
    ((runStats Tool.ECGenerator [0, 10000001]).total_keys_generated = 0
      ↔ (runStats Tool.ECGenerator [0, 10000001]).first_key_generated = false)
    ∧ ((runStats Tool.ECGenerator [0, 10000000]).total_keys_generated = 0
      ↔ (runStats Tool.ECGenerator [0, 10000000]).first_key_generated = false) :=
  ⟨count_zero_iff_not_initialized Tool.ECGenerator [0, 10000001] (by decide),
   count_zero_iff_not_initialized Tool.ECGenerator [0, 10000000] (by decide)⟩

/-! ## Sum against count, min and max -/

/-- While the total of the accepted durations is below `2^64` neither the counter
nor the sum has wrapped. -/
theorem runStats_of_total_lt (tool : Tool) (l : List Nat)
    (h : (l.filter (passes tool)).sum < UINT64_SIZE) :
    (runStats tool l).total_keys_generated = (l.filter (passes tool)).length
    ∧ (runStats tool l).total_time_microseconds = (l.filter (passes tool)).sum := by
  have h1 : (l.filter (passes tool)).length ≤ (l.filter (passes tool)).sum := by
    have := List.card_nsmul_le_sum (l.filter (passes tool)) 1 (by
      intro x hx
      exact ((passes_iff tool x).1 (List.mem_filter.1 hx).2).1)
    simpa using this
  refine ⟨?_, ?_⟩
  · rw [runStats_count, List.countP_eq_length_filter]
    exact Nat.mod_eq_of_lt (lt_of_le_of_lt h1 h)
  · rw [runStats_sum, Nat.mod_eq_of_lt h]

/-- C8, as stated, fails on the RSA generator: after the 5,124,095,600 accepted
calls of a run of 100 threads with 51,240,956 loops, all measured at 3,600,000,000
microseconds, the stored sum has wrapped to 86,290,448,384, far below count * min. -/
theorem sum_lt_count_mul_min_rsa :
    runStats Tool.RSAGenerator (List.replicate 5124095600 3600000000)
        = ⟨5124095600, 86290448384, 3600000000, 3600000000, true⟩
    ∧ ¬ ((runStats Tool.RSAGenerator (List.replicate 5124095600 3600000000)).total_keys_generated
          * (runStats Tool.RSAGenerator (List.replicate 5124095600 3600000000)).min_time_microseconds
        ≤ (runStats Tool.RSAGenerator
            (List.replicate 5124095600 3600000000)).total_time_microseconds) := by
  have h : runStats Tool.RSAGenerator (List.replicate 5124095600 3600000000)
      = ⟨5124095600, 86290448384, 3600000000, 3600000000, true⟩ := by
    rw [runStats_replicate Tool.RSAGenerator 5124095600 3600000000 (by decide) (by decide)]
    decide
  refine ⟨h, ?_⟩
  rw [h]
  decide

/-- C8, amended. In every state reached from the fresh state by a sequence of
calls whose accepted durations total less than `2^64`, count * min ≤ sum and
sum ≤ count * max. -/
theorem count_mul_min_le_sum_le_count_mul_max (tool : Tool) (l : List Nat)
    (h : (l.filter (passes tool)).sum < UINT64_SIZE) :
    (runStats tool l).total_keys_generated * (runStats tool l).min_time_microseconds
        ≤ (runStats tool l).total_time_microseconds
    ∧ (runStats tool l).total_time_microseconds
        ≤ (runStats tool l).total_keys_generated * (runStats tool l).max_time_microseconds := by
  obtain ⟨hc, hs⟩ := runStats_of_total_lt tool l h
  rw [hc, hs]
  cases hf : (runStats tool l).first_key_generated
  · obtain ⟨hmin, hmax⟩ := runStats_min_max_of_not_first tool l hf
    have hnil : l.filter (passes tool) = [] := by
      rw [runStats_first, List.any_eq_false] at hf
      rw [List.filter_eq_nil_iff]
      exact hf
    simp [hmin, hmax, hnil]
  · obtain ⟨_, hlo⟩ := runStats_min_spec tool l hf
    obtain ⟨_, hhi⟩ := runStats_max_spec tool l hf
    refine ⟨?_, ?_⟩
    · have := List.card_nsmul_le_sum (l.filter (passes tool))
        (runStats tool l).min_time_microseconds (by
          intro x hx
          exact hlo x (List.mem_filter.1 hx).1 (List.mem_filter.1 hx).2)
      simpa using this
    · have := List.sum_le_card_nsmul (l.filter (passes tool))
        (runStats tool l).max_time_microseconds (by
          intro x hx
          exact hhi x (List.mem_filter.1 hx).1 (List.mem_filter.1 hx).2)
      simpa using this

/-- C8, amended, at the calls 4, 0, 9, 6 of the signer: 3 * 4 ≤ 19 ≤ 3 * 9. -/
theorem count_mul_min_le_sum_le_count_mul_max_witness :
    (runStats Tool.ECDSASigner [4, 0, 9, 6]).total_keys_generated
        * (runStats Tool.ECDSASigner [4, 0, 9, 6]).min_time_microseconds
        ≤ (runStats Tool.ECDSASigner [4, 0, 9, 6]).total_time_microseconds
    ∧ (runStats Tool.ECDSASigner [4, 0, 9, 6]).total_time_microseconds
        ≤ (runStats Tool.ECDSASigner [4, 0, 9, 6]).total_keys_generated
          * (runStats Tool.ECDSASigner [4, 0, 9, 6]).max_time_microseconds :=
  count_mul_min_le_sum_le_count_mul_max Tool.ECDSASigner [4, 0, 9, 6] (by decide)

/-! ## Monotonicity -/

/-- C9, as stated, fails on the RSA generator: the state reached by 5,124,095,576
accepted calls of 3,600,000,000 microseconds has a sum just below `2^64`, and one
more such call wraps the sum down to 3,490,448,384. -/
theorem sum_decreases_on_wrap_rsa :
    runStats Tool.RSAGenerator (List.replicate 5124095576 3600000000)
        = ⟨5124095576, 18446744073600000000, 3600000000, 3600000000, true⟩
    ∧ (updateStats Tool.RSAGenerator
          ⟨5124095576, 18446744073600000000, 3600000000, 3600000000, true⟩
          3600000000).total_time_microseconds = 3490448384
    ∧ ¬ ((updateStats Tool.RSAGenerator
          ⟨5124095576, 18446744073600000000, 3600000000, 3600000000, true⟩
          3600000000).total_time_microseconds ≥ 18446744073600000000) := by
  refine ⟨?_, by decide, by decide⟩
  rw [runStats_replicate Tool.RSAGenerator 5124095576 3600000000 (by decide) (by decide)]
  decide

/-- C9, amended. For every state `s` and duration `d` such that, when `d` is
accepted, neither 64-bit addition wraps (`s.count + 1 < 2^64` and
`s.sum + d < 2^64`), the state after `updateStats(d)` has count ≥ `s.count` and
sum ≥ `s.sum`; and of two snapshots taken in sequence from the fresh state, after
the calls `l₁` and after the further calls `l₂`, the later one has the larger or
equal count and sum whenever the accepted durations of all the calls total less
than `2^64`. -/
theorem count_sum_monotone_without_wrap (tool : Tool) :
    (∀ (s : Stats) (d : Nat),
        (passes tool d = true → s.total_keys_generated + 1 < UINT64_SIZE) →
        (passes tool d = true → s.total_time_microseconds + d < UINT64_SIZE) →
        (updateStats tool s d).total_keys_generated ≥ s.total_keys_generated
        ∧ (updateStats tool s d).total_time_microseconds ≥ s.total_time_microseconds)
    ∧ (∀ l₁ l₂ : List Nat, ((l₁ ++ l₂).filter (passes tool)).sum < UINT64_SIZE →
        (runStats tool l₁).total_keys_generated ≤ (runStats tool (l₁ ++ l₂)).total_keys_generated
        ∧ (runStats tool l₁).total_time_microseconds
            ≤ (runStats tool (l₁ ++ l₂)).total_time_microseconds) := by
  refine ⟨?_, ?_⟩
  · intro s d hc hs
    cases h : passes tool d
    · rw [updateStats_of_not_passes tool s d h]
      exact ⟨le_refl _, le_refl _⟩
    · rw [updateStats_of_passes tool s d h]
      simp only [Nat.mod_eq_of_lt (hc h), Nat.mod_eq_of_lt (hs h)]
      exact ⟨Nat.le_add_right _ _, Nat.le_add_right _ _⟩
  · intro l₁ l₂ h
    have h12 : ((l₁ ++ l₂).filter (passes tool)).sum
        = (l₁.filter (passes tool)).sum + (l₂.filter (passes tool)).sum := by
      rw [List.filter_append, List.sum_append]
    have h1 : (l₁.filter (passes tool)).sum < UINT64_SIZE := by omega
    obtain ⟨hc1, hs1⟩ := runStats_of_total_lt tool l₁ h1
    obtain ⟨hc, hs⟩ := runStats_of_total_lt tool (l₁ ++ l₂) h
    rw [hc1, hs1, hc, hs, h12, List.filter_append, List.length_append]
    exact ⟨Nat.le_add_right _ _, Nat.le_add_right _ _⟩

/-- C9, amended, at a state of the EC generator with an accepted and with a
rejected duration, and at two snapshots of one sequence. -/
theorem count_sum_monotone_without_wrap_witness :
    ((updateStats Tool.ECGenerator ⟨3, 700, 200, 300, true⟩ 50).total_keys_generated ≥ 3
      ∧ (updateStats Tool.ECGenerator ⟨3, 700, 200, 300, true⟩ 50).total_time_microseconds ≥ 700)
    ∧ ((runStats Tool.ECGenerator [5, 0]).total_keys_generated
          ≤ (runStats Tool.ECGenerator ([5, 0] ++ [20000000, 7])).total_keys_generated
      ∧ (runStats Tool.ECGenerator [5, 0]).total_time_microseconds
          ≤ (runStats Tool.ECGenerator ([5, 0] ++ [20000000, 7])).total_time_microseconds) :=
  ⟨(count_sum_monotone_without_wrap Tool.ECGenerator).1 ⟨3, 700, 200, 300, true⟩ 50
      (fun _ => by decide) (fun _ => by decide),
   (count_sum_monotone_without_wrap Tool.ECGenerator).2 [5, 0] [20000000, 7] (by decide)⟩

/-! ## A run with a fixed duration -/

theorem workerThreadCounted_stats (tool : Tool) (setup_ok : Bool) (op : Nat → Outcome)
    (num_loops : Int) (s : Stats) :
    (workerThreadCounted tool setup_ok op num_loops s).stats
      = workerThread tool setup_ok op num_loops s := by
  unfold workerThreadCounted workerThread
  cases setup_ok
  · rfl
  · simp only [Bool.not_true, Bool.false_eq_true, if_false]
    generalize (0 : Nat) = c
    generalize List.range num_loops.toNat = is
    induction is generalizing s c with
    | nil => rfl
    | cons i is ih => exact ih _ _

theorem workerThreadCounted_invocations (tool : Tool) (op : Nat → Outcome)
    (num_loops : Int) (s : Stats) :
    (workerThreadCounted tool true op num_loops s).invocations = num_loops.toNat := by
  unfold workerThreadCounted
  simp only [Bool.not_true, Bool.false_eq_true, if_false]
  have key : ∀ (is : List Nat) (r : WorkerRun),
      (is.foldl (fun r i =>
        ({ stats := loopBody tool r.stats (op i), invocations := r.invocations + 1 } : WorkerRun))
        r).invocations = r.invocations + is.length := by
    intro is
    induction is with
    | nil => intro r; rfl
    | cons i is ih =>
      intro r
      rw [List.foldl_cons, ih, List.length_cons]
      simp only
      omega
  rw [key]
  simp

/-- A count that is zero or negative becomes, as a `uint64_t`, a value the
sanity check rejects. -/
theorem not_passes_toUInt64_of_nonpos (tool : Tool) (c : Int) (hc : isInt64 c) (h : ¬ c > 0) :
    passes tool (toUInt64 c) = false := by
  rw [passes_eq_false_iff]
  have hceil : tool.ceiling ≤ 3600000000 := by cases tool <;> simp [Tool.ceiling]
  unfold isInt64 at hc
  unfold toUInt64 UINT64_SIZE
  omega

/-- The guard `duration.count() > 0` changes nothing: the iteration of a
successful invocation is the call `updateStats(static_cast<uint64_t>(c))`. -/
theorem loopBody_some (tool : Tool) (s : Stats) (c : Int) (hc : isInt64 c) :
    loopBody tool s (some c) = updateStats tool s (toUInt64 c) := by
  by_cases h : c > 0
  · simp [loopBody, h]
  · rw [updateStats_of_not_passes tool s _ (not_passes_toUInt64_of_nonpos tool c hc h)]
    simp [loopBody, h]

theorem map_range_getD {α : Type} (l : List α) (d : α) :
    (List.range l.length).map (fun i => l.getD i d) = l := by
  apply List.ext_getElem
  · simp
  · intro i h1 h2
    simp [List.getD_eq_getElem, h2]

/-- The loop over the iteration numbers is the fold over the outcomes. -/
theorem workerThread_eq_foldl (tool : Tool) (outs : List Outcome) (s : Stats) :
    workerThread tool true (fun i => outs.getD i none) (outs.length : Int) s
      = outs.foldl (loopBody tool) s := by
  unfold workerThread
  simp only [Bool.not_true, Bool.false_eq_true, if_false, Int.toNat_ofNat]
  have h := List.foldl_map (fun i => outs.getD i none) (loopBody tool)
    (List.range outs.length) s
  rw [map_range_getD] at h
  exact h.symm

theorem foldl_loopBody (tool : Tool) (outs : List Outcome) (s : Stats)
    (hrange : ∀ c, some c ∈ outs → isInt64 c) :
    outs.foldl (loopBody tool) s = applyAll tool s ((outs.filterMap id).map toUInt64) := by
  induction outs generalizing s with
  | nil => rfl
  | cons o outs ih =>
    have ih2 := fun s => ih s (fun c hc => hrange c (List.mem_cons_of_mem _ hc))
    cases o with
    | none =>
      rw [List.foldl_cons, ih2]
      rfl
    | some c =>
      rw [List.foldl_cons, ih2, loopBody_some tool s c (hrange c (List.mem_cons_self _ _))]
      rfl

/-- C11. A worker whose setup succeeded, given any sequence `outs` of `loop_count`
outcomes (each a failure `none` or a success `some c` with the measured count `c`,
a signed 64-bit value), invokes the timed operation exactly `loop_count` times,
and its net effect on the statistics is that of `updateStats` applied, in order,
to the durations of the successful invocations only; the iteration of a failed
invocation returns the state it was given. -/
theorem workerThread_net_effect (tool : Tool) (outs : List Outcome) (s : Stats)
    (hrange : ∀ c, some c ∈ outs → isInt64 c) :
    (workerThreadCounted tool true (fun i => outs.getD i none) (outs.length : Int) s).invocations
        = outs.length
    ∧ workerThread tool true (fun i => outs.getD i none) (outs.length : Int) s
        = applyAll tool s ((outs.filterMap id).map toUInt64)
    ∧ (workerThreadCounted tool true (fun i => outs.getD i none) (outs.length : Int) s).stats
        = applyAll tool s ((outs.filterMap id).map toUInt64)
    ∧ ∀ s' : Stats, loopBody tool s' none = s' := by
  have h := (workerThread_eq_foldl tool outs s).trans (foldl_loopBody tool outs s hrange)
  refine ⟨?_, h, ?_, fun _ => rfl⟩
  · rw [workerThreadCounted_invocations]
    simp
  · rw [workerThreadCounted_stats, h]

/-- C11 at five outcomes on the signer: a success of 40, a failure, a success
measured as 0, one measured as -3 and one of 25.  Five invocations; the state is
that of the calls 40, 0, 2^64 - 3, 25, of which 40 and 25 are accepted. -/
theorem workerThread_net_effect_witness :
    (workerThreadCounted Tool.ECDSASigner true
        (fun i => [some 40, none, some 0, some (-3), some 25].getD i none)
        5 Stats.fresh).invocations = 5
    ∧ workerThread Tool.ECDSASigner true
        (fun i => [some 40, none, some 0, some (-3), some 25].getD i none) 5 Stats.fresh
        = applyAll Tool.ECDSASigner Stats.fresh [40, 0, 18446744073709551613, 25]
    ∧ applyAll Tool.ECDSASigner Stats.fresh [40, 0, 18446744073709551613, 25]
        = ⟨2, 65, 25, 40, true⟩ := by
  have h := workerThread_net_effect Tool.ECDSASigner
    [some 40, none, some 0, some (-3), some 25] Stats.fresh (by
      intro c hc
      simp only [List.mem_cons, Option.some.injEq, List.mem_singleton, reduceCtorEq,
        false_or, List.not_mem_nil, or_false] at hc
      rcases hc with rfl | rfl | rfl | rfl <;> decide)
  exact ⟨h.1, h.2.1, by decide⟩

/-! ## The reporter -/

/-- In exact arithmetic `printStats` reports the count divided by
`elapsed.count()` when that is positive, and 0 otherwise. -/
theorem printStats_throughput_exact (s : Stats) (S : Int) :
    (S > 0 → (printStats exactOps s S).report.throughput
        = (s.total_keys_generated : ℚ) / (S : ℚ))
    ∧ (S ≤ 0 → (printStats exactOps s S).report.throughput = 0) := by
  by_cases hc : s.total_keys_generated = 0
  · refine ⟨fun hS => ?_, fun _ => ?_⟩
    · simp [printStats, hc, exactOps]
    · simp [printStats, hc, exactOps]
  · refine ⟨fun hS => ?_, fun hS => ?_⟩
    · simp [printStats, hc, hS, exactOps]
    · have hS2 : ¬ S > 0 := by omega
      simp [printStats, hc, hS2, exactOps]

/-- C12, as stated, fails for an elapsed time that is not a whole number of
seconds, because `printStats` truncates it with `duration_cast<seconds>`.  A
snapshot with count 30 taken 1.9 s after the start is reported with throughput
30 / 1 = 30, not 30 / 1.9 = 300/19; taken 0.9 s after the start it is reported
with throughput 0 although the elapsed time is positive (exact arithmetic). -/
theorem throughput_uses_truncated_seconds :
    durationCastSeconds 1900000000 = 1
    ∧ (printStatsAt exactOps ⟨30, 600, 10, 40, true⟩ 1900000000).report.throughput = 30
    ∧ (30 : ℚ) / ((1900000000 : ℚ) / 1000000000) = 300 / 19
    ∧ (printStatsAt exactOps ⟨30, 600, 10, 40, true⟩ 1900000000).report.throughput
        ≠ (30 : ℚ) / ((1900000000 : ℚ) / 1000000000)
    ∧ durationCastSeconds 900000000 = 0
    ∧ (900000000 : ℚ) / 1000000000 > 0
    ∧ (printStatsAt exactOps ⟨30, 600, 10, 40, true⟩ 900000000).report.throughput = 0
    ∧ (printStatsAt exactOps ⟨30, 600, 10, 40, true⟩ 900000000).report.throughput
        ≠ (30 : ℚ) / ((900000000 : ℚ) / 1000000000) := by
  have h1 : durationCastSeconds 1900000000 = 1 := by decide
  have h2 : durationCastSeconds 900000000 = 0 := by decide
  have t1 : (printStatsAt exactOps ⟨30, 600, 10, 40, true⟩ 1900000000).report.throughput
      = 30 := by
    unfold printStatsAt
    rw [h1, (printStats_throughput_exact ⟨30, 600, 10, 40, true⟩ 1).1 (by decide)]
    norm_num
  have t2 : (printStatsAt exactOps ⟨30, 600, 10, 40, true⟩ 900000000).report.throughput
      = 0 := by
    unfold printStatsAt
    rw [h2, (printStats_throughput_exact ⟨30, 600, 10, 40, true⟩ 0).2 (by decide)]
  refine ⟨h1, t1, by norm_num, ?_, h2, by norm_num, t2, ?_⟩
  · rw [t1]
    norm_num
  · rw [t2]
    norm_num

/-- C12, amended. A snapshot with count `C` taken `elapsed_ns` nanoseconds after
the start is reported with throughput `C / S`, where `S` is the elapsed time
truncated to whole seconds by `duration_cast<seconds>`
(`S * 10^9 ≤ elapsed_ns < (S + 1) * 10^9`), when `S > 0`, and with throughput 0
when `S = 0`, that is during the whole first second.  So the reported throughput
is `C / T`, with `T` the elapsed time in seconds, exactly when `T` is a whole
number of seconds.  The first four parts are in exact arithmetic; the last part
is the same statement for the `double` operations, in any arithmetic where zero
divided by a positive number is zero (the line of literal zeros printed for
`C = 0`). -/
theorem printStatsAt_throughput (s : Stats) (elapsed_ns : Int) :
    (0 ≤ elapsed_ns →
        durationCastSeconds elapsed_ns * 1000000000 ≤ elapsed_ns
        ∧ elapsed_ns < (durationCastSeconds elapsed_ns + 1) * 1000000000)
    ∧ (durationCastSeconds elapsed_ns > 0 →
        (printStatsAt exactOps s elapsed_ns).report.throughput
          = (s.total_keys_generated : ℚ) / (durationCastSeconds elapsed_ns : ℚ))
    ∧ (durationCastSeconds elapsed_ns = 0 →
        (printStatsAt exactOps s elapsed_ns).report.throughput = 0)
    ∧ (elapsed_ns > 0 → elapsed_ns = durationCastSeconds elapsed_ns * 1000000000 →
        (printStatsAt exactOps s elapsed_ns).report.throughput
          = (s.total_keys_generated : ℚ) / ((elapsed_ns : ℚ) / 1000000000))
    ∧ (∀ (α : Type) (F : FloatOps α),
        (∀ t : Int, t > 0 → F.div (F.ofUInt64 0) (F.ofInt64 t) = F.zero) →
        (durationCastSeconds elapsed_ns > 0 →
          (printStatsAt F s elapsed_ns).report.throughput
            = F.div (F.ofUInt64 s.total_keys_generated)
                (F.ofInt64 (durationCastSeconds elapsed_ns)))
        ∧ (durationCastSeconds elapsed_ns = 0 →
          (printStatsAt F s elapsed_ns).report.throughput = F.zero)) := by
  refine ⟨?_, ?_, ?_, ?_, ?_⟩
  · intro h0
    have hdiv : durationCastSeconds elapsed_ns = elapsed_ns / 1000000000 :=
      Int.tdiv_eq_ediv h0 (by decide)
    rw [hdiv]
    omega
  · intro hS
    exact (printStats_throughput_exact s _).1 hS
  · intro hS
    exact (printStats_throughput_exact s _).2 (le_of_eq hS)
  · intro hpos hwhole
    have hS : durationCastSeconds elapsed_ns > 0 := by omega
    have hq : ((elapsed_ns : ℚ) / 1000000000) = (durationCastSeconds elapsed_ns : ℚ) := by
      have hcast : (elapsed_ns : ℚ) = (durationCastSeconds elapsed_ns : ℚ) * 1000000000 := by
        exact_mod_cast hwhole
      rw [hcast]
      field_simp
    rw [hq]
    exact (printStats_throughput_exact s _).1 hS
  · intro α F hzero
    by_cases hc : s.total_keys_generated = 0
    · refine ⟨fun hS => ?_, fun _ => ?_⟩
      · simp [printStatsAt, printStats, hc, hzero _ hS]
      · simp [printStatsAt, printStats, hc]
    · refine ⟨fun hS => ?_, fun hS => ?_⟩
      · simp [printStatsAt, printStats, hc, hS]
      · simp [printStatsAt, printStats, hc, hS]

/-- C12, amended, in exact arithmetic: 30 keys after 4.7 s are reported as
30 / 4 = 15/2 per second, after exactly 4 s as 30 / 4 too, which is then `C / T`,
and after 0.3 s as 0. -/
theorem printStatsAt_throughput_witness :
    (printStatsAt exactOps ⟨30, 600, 10, 40, true⟩ 4700000000).report.throughput = 15 / 2
    ∧ (printStatsAt exactOps ⟨30, 600, 10, 40, true⟩ 4000000000).report.throughput
        = (30 : ℚ) / ((4000000000 : ℚ) / 1000000000)
    ∧ (printStatsAt exactOps ⟨30, 600, 10, 40, true⟩ 300000000).report.throughput = 0 := by
  have h47 : durationCastSeconds 4700000000 = 4 := by decide
  refine ⟨?_, ?_, ?_⟩
  · rw [(printStatsAt_throughput ⟨30, 600, 10, 40, true⟩ 4700000000).2.1 (by decide), h47]
    norm_num
  · have h := (printStatsAt_throughput ⟨30, 600, 10, 40, true⟩ 4000000000).2.2.2.1
      (by decide) (by decide)
    simpa using h
  · exact (printStatsAt_throughput ⟨30, 600, 10, 40, true⟩ 300000000).2.2.1 (by decide)

/-- Every schedule of a run ends in the same state: the one of the workers run
one after the other. -/
theorem runFinal_iff (tool : Tool) (env : Env) (num_threads num_loops : Int) (s : Stats) :
    RunFinal tool env num_threads num_loops s
      ↔ s = runStats tool (runCalls tool env num_threads num_loops).flatten := by
  constructor
  · rintro ⟨l, hl, rfl⟩
    exact runStats_eq_of_perm tool hl.perm
  · intro hs
    exact ⟨_, Interleaving.sequential _, hs⟩

theorem workerCalls_of_all_fail (setup_ok : Bool) (op : Nat → Outcome) (num_loops : Int)
    (hop : ∀ i, op i = none) : workerCalls setup_ok op num_loops = [] := by
  unfold workerCalls
  cases setup_ok
  · rfl
  · simp [hop, loopCall]

theorem runCalls_flatten_of_all_fail (tool : Tool) (env : Env) (num_threads num_loops : Int)
    (hop : ∀ w i, env.op w i = none) :
    (runCalls tool env num_threads num_loops).flatten = [] := by
  rw [List.flatten_eq_nil_iff]
  intro l hl
  unfold runCalls at hl
  split at hl
  · simp at hl
  · simp only [List.mem_map, List.mem_range] at hl
    obtain ⟨w, _, rfl⟩ := hl
    exact workerCalls_of_all_fail _ _ _ (hop w)

/-- C13. A run in which every invocation of the timed operation fails has a final
state, and its final count is 0.  For every state with count 0, `printStats`
prints throughput, average, min and max as zero and evaluates no division.  In
every state every division `printStats` evaluates has a divisor other than
zero.  For count > 0 the reported average equals sum / count: the value printed
with the unit ms is sum / count microseconds, so that in exact arithmetic the
printed number times 1000 is sum / count; it is computed as
`total_time / total_keys / 1000.0`. -/
theorem all_fail_and_zero_count_report {α : Type} (F : FloatOps α) (tool : Tool) :
    (∀ (env : Env) (num_threads num_loops : Int), (∀ w i, env.op w i = none) →
        (∃ s, RunFinal tool env num_threads num_loops s)
        ∧ ∀ s, RunFinal tool env num_threads num_loops s → s.total_keys_generated = 0)
    ∧ (∀ (s : Stats) (T : Int), s.total_keys_generated = 0 →
        (printStats F s T).report.throughput = F.zero
        ∧ (printStats F s T).report.avg_time_ms = F.zero
        ∧ (printStats F s T).report.min_time_ms = F.zero
        ∧ (printStats F s T).report.max_time_ms = F.zero
        ∧ (printStats F s T).divisors = [])
    ∧ (∀ (s : Stats) (T : Int), ∀ x ∈ (printStats F s T).divisors, x ≠ 0)
    ∧ (∀ (s : Stats) (T : Int), s.total_keys_generated > 0 →
        (printStats F s T).report.avg_time_ms
          = F.div (F.div (F.ofUInt64 s.total_time_microseconds)
              (F.ofUInt64 s.total_keys_generated)) F.thousand)
    ∧ (∀ (s : Stats) (T : Int), s.total_keys_generated > 0 →
        (printStats exactOps s T).report.avg_time_ms * 1000
          = (s.total_time_microseconds : ℚ) / (s.total_keys_generated : ℚ)) := by
  refine ⟨?_, ?_, ?_, ?_, ?_⟩
  · intro env n k hop
    have hfl := runCalls_flatten_of_all_fail tool env n k hop
    refine ⟨⟨_, (runFinal_iff tool env n k _).2 rfl⟩, ?_⟩
    intro s hs
    rw [(runFinal_iff tool env n k s).1 hs, hfl]
    rfl
  · intro s T hc
    simp [printStats, hc]
  · intro s T x hx
    by_cases hc : s.total_keys_generated = 0
    · simp [printStats, hc] at hx
    · by_cases hT : T > 0
      · simp only [printStats, hc, hT, if_true, if_false, List.singleton_append, List.mem_cons,
          List.mem_singleton, List.not_mem_nil, or_false] at hx
        rcases hx with rfl | rfl | rfl | rfl | rfl
        · omega
        · exact_mod_cast hc
        all_goals decide
      · simp only [printStats, hc, hT, if_false, List.nil_append, List.mem_cons,
          List.mem_singleton, List.not_mem_nil, or_false] at hx
        rcases hx with rfl | rfl | rfl | rfl
        · exact_mod_cast hc
        all_goals decide
  · intro s T hc
    have hc0 : s.total_keys_generated ≠ 0 := by omega
    simp [printStats, hc0]
  · intro s T hc
    have hc0 : s.total_keys_generated ≠ 0 := by omega
    simp [printStats, hc0, exactOps]

/-- C13 in exact arithmetic: a run of 3 threads and 5 loops of the EC generator
whose every key generation fails ends with count 0; the fresh state is reported
as four zeros; and the state with count 4 and sum 6000 is reported with the
average 1.5 ms, which is 6000 / 4 = 1500 microseconds. -/
theorem all_fail_and_zero_count_report_witness :
    (∃ s, RunFinal Tool.ECGenerator ⟨true, fun _ => true, fun _ _ => none⟩ 3 5 s
      ∧ s.total_keys_generated = 0)
    ∧ (printStats exactOps Stats.fresh 7).report.throughput = 0
    ∧ (printStats exactOps Stats.fresh 7).report.avg_time_ms = 0
    ∧ (printStats exactOps ⟨4, 6000, 1000, 2000, true⟩ 7).report.avg_time_ms * 1000
        = (6000 : ℚ) / 4 := by
  have h := all_fail_and_zero_count_report exactOps Tool.ECGenerator
  obtain ⟨⟨s, hs⟩, hall⟩ := h.1 ⟨true, fun _ => true, fun _ _ => none⟩ 3 5 (fun _ _ => rfl)
  refine ⟨⟨s, hs, hall s hs⟩, (h.2.1 Stats.fresh 7 rfl).1, (h.2.1 Stats.fresh 7 rfl).2.1, ?_⟩
  have h4 := h.2.2.2.2 ⟨4, 6000, 1000, 2000, true⟩ 7 (by decide)
  simpa using h4

/-- C18. A call of `printStats` leaves count, sum, min, max and the flag as they
were, and the five values it reads under the mutex are the five stored values of
the state it was called on. -/
theorem printStats_read_only {α : Type} (F : FloatOps α) (s : Stats) (T : Int) :
    (printStats F s T).state = s
    ∧ (printStats F s T).snapshot.total_keys_generated = s.total_keys_generated
    ∧ (printStats F s T).snapshot.total_time_microseconds = s.total_time_microseconds
    ∧ (printStats F s T).snapshot.min_time_microseconds = s.min_time_microseconds
    ∧ (printStats F s T).snapshot.max_time_microseconds = s.max_time_microseconds
    ∧ (printStats F s T).snapshot.first_key_generated = s.first_key_generated := by
  by_cases hc : s.total_keys_generated = 0
  · simp [printStats, hc]
  · simp [printStats, hc]

/-! ## The command line -/

/-- C14, as stated, fails in the two EC tools: with the single argument `--curves`
(or `-c`) the argument count is 2, not 4, and `main` returns 0. -/
theorem main_list_flag_returns_zero :
    ["ec_generator", "--curves"].length ≠ 4
    ∧ (Tool.main Tool.ECGenerator atoiDigits ["ec_generator", "--curves"]).exit_code = 0
    ∧ ["ecdsa_signer", "-c"].length ≠ 4
    ∧ (Tool.main Tool.ECDSASigner atoiDigits ["ecdsa_signer", "-c"]).exit_code = 0 := by
  decide

/-- C14, amended. For every argument vector that is not the list flag of an EC
tool (`--curves` or `-c` as the only argument) and in which the argument count is
not 4, or the parsed thread count is outside [1,100], or the parsed loop count is
below 1, or (RSA tool) the parsed key size is outside [512,8192], `main` returns
1 without calling `run`: no worker and no reporter thread is started. -/
theorem main_rejects_bad_config (tool : Tool) (atoi : String → Int) (argv : List String)
    (hflag : ¬ (tool.checksCurve = true ∧ argv.length = 2
      ∧ (argv.getD 1 "" = "--curves" ∨ argv.getD 1 "" = "-c")))
    (hbad : argv.length ≠ 4
      ∨ atoi (argv.getD 2 "") < 1 ∨ atoi (argv.getD 2 "") > 100
      ∨ atoi (argv.getD 3 "") < 1
      ∨ (tool = Tool.RSAGenerator
          ∧ (atoi (argv.getD 1 "") < 512 ∨ atoi (argv.getD 1 "") > 8192))) :
    (tool.main atoi argv).exit_code = 1
    ∧ (∀ c n k, (tool.main atoi argv).action ≠ MainAction.runCurve c n k)
    ∧ (∀ b n k, (tool.main atoi argv).action ≠ MainAction.runRSA b n k)
    ∧ mainActions tool atoi argv = [] := by
  have key : tool.main atoi argv = ⟨1, MainAction.printUsage⟩
      ∨ ∃ m, tool.main atoi argv = ⟨1, MainAction.error m⟩ := by
    cases tool
    · have hflag2 : ¬ (argv.length = 2
          ∧ (argv.getD 1 "" = "--curves" ∨ argv.getD 1 "" = "-c")) :=
        fun h => hflag ⟨rfl, h⟩
      have hbad2 : argv.length ≠ 4 ∨ atoi (argv.getD 2 "") < 1 ∨ atoi (argv.getD 2 "") > 100
          ∨ atoi (argv.getD 3 "") < 1 := by
        rcases hbad with h | h | h | h | ⟨h, _⟩
        · exact Or.inl h
        · exact Or.inr (Or.inl h)
        · exact Or.inr (Or.inr (Or.inl h))
        · exact Or.inr (Or.inr (Or.inr h))
        · cases h
      show ECGenerator.main atoi argv = _ ∨ ∃ m, ECGenerator.main atoi argv = _
      unfold ECGenerator.main
      rw [if_neg hflag2]
      dsimp only
      split_ifs with h1 h2 h3
      · exact Or.inl rfl
      · exact Or.inr ⟨_, rfl⟩
      · exact Or.inr ⟨_, rfl⟩
      · exfalso
        tauto
    · show RSAGenerator.main atoi argv = _ ∨ ∃ m, RSAGenerator.main atoi argv = _
      unfold RSAGenerator.main
      dsimp only
      split_ifs with h1 h2 h3 h4
      · exact Or.inl rfl
      · exact Or.inr ⟨_, rfl⟩
      · exact Or.inr ⟨_, rfl⟩
      · exact Or.inr ⟨_, rfl⟩
      · exfalso
        tauto
    · have hflag2 : ¬ (argv.length = 2
          ∧ (argv.getD 1 "" = "--curves" ∨ argv.getD 1 "" = "-c")) :=
        fun h => hflag ⟨rfl, h⟩
      have hbad2 : argv.length ≠ 4 ∨ atoi (argv.getD 2 "") < 1 ∨ atoi (argv.getD 2 "") > 100
          ∨ atoi (argv.getD 3 "") < 1 := by
        rcases hbad with h | h | h | h | ⟨h, _⟩
        · exact Or.inl h
        · exact Or.inr (Or.inl h)
        · exact Or.inr (Or.inr (Or.inl h))
        · exact Or.inr (Or.inr (Or.inr h))
        · cases h
      show ECDSASigner.main atoi argv = _ ∨ ∃ m, ECDSASigner.main atoi argv = _
      unfold ECDSASigner.main
      rw [if_neg hflag2]
      dsimp only
      split_ifs with h1 h2 h3
      · exact Or.inl rfl
      · exact Or.inr ⟨_, rfl⟩
      · exact Or.inr ⟨_, rfl⟩
      · exfalso
        tauto
  unfold mainActions
  rcases key with h | ⟨m, h⟩
  · rw [h]
    exact ⟨rfl, fun _ _ _ hh => MainAction.noConfusion hh,
      fun _ _ _ hh => MainAction.noConfusion hh, rfl⟩
  · rw [h]
    exact ⟨rfl, fun _ _ _ hh => MainAction.noConfusion hh,
      fun _ _ _ hh => MainAction.noConfusion hh, rfl⟩

/-- C14, amended, at `thread_count = 1`, `loop_count = 0` on the EC generator, and
at the key size 256 on the RSA generator: exit code 1, no thread. -/
theorem main_rejects_bad_config_witness :
    ((Tool.main Tool.ECGenerator atoiDigits ["ec_generator", "P256", "1", "0"]).exit_code = 1
      ∧ mainActions Tool.ECGenerator atoiDigits ["ec_generator", "P256", "1", "0"] = [])
    ∧ ((Tool.main Tool.RSAGenerator atoiDigits ["rsa_generator", "256", "4", "10"]).exit_code = 1
      ∧ mainActions Tool.RSAGenerator atoiDigits ["rsa_generator", "256", "4", "10"] = []) :=
  ⟨⟨(main_rejects_bad_config Tool.ECGenerator atoiDigits ["ec_generator", "P256", "1", "0"]
        (by decide) (by decide)).1,
    (main_rejects_bad_config Tool.ECGenerator atoiDigits ["ec_generator", "P256", "1", "0"]
        (by decide) (by decide)).2.2.2⟩,
   ⟨(main_rejects_bad_config Tool.RSAGenerator atoiDigits ["rsa_generator", "256", "4", "10"]
        (by decide) (by decide)).1,
    (main_rejects_bad_config Tool.RSAGenerator atoiDigits ["rsa_generator", "256", "4", "10"]
        (by decide) (by decide)).2.2.2⟩⟩

/-- For a selector outside `curve_map`, with valid thread and loop counts, the two
EC tools call `run`, which starts no thread, and `main` then returns 0. -/
theorem main_unknown_curve (atoi : String → Int) (prog sel t l : String)
    (hsel : toupper sel ∉ curve_map_keys)
    (ht : 1 ≤ atoi t ∧ atoi t ≤ 100) (hl : 1 ≤ atoi l) :
    ((ECGenerator.main atoi [prog, sel, t, l]).exit_code = 0
      ∧ mainActions Tool.ECGenerator atoi [prog, sel, t, l] = [])
    ∧ ((ECDSASigner.main atoi [prog, sel, t, l]).exit_code = 0
      ∧ mainActions Tool.ECDSASigner atoi [prog, sel, t, l] = []) := by
  have hflag : ¬ ([prog, sel, t, l].length = 2
      ∧ ([prog, sel, t, l].getD 1 "" = "--curves" ∨ [prog, sel, t, l].getD 1 "" = "-c")) := by
    intro h
    exact absurd h.1 (by simp)
  have h4 : ¬ [prog, sel, t, l].length ≠ 4 := fun h => h rfl
  have ht2 : ¬ (atoi t < 1 ∨ atoi t > 100) := by omega
  have hl2 : ¬ atoi l < 1 := by omega
  have hec : ECGenerator.main atoi [prog, sel, t, l]
      = ⟨0, MainAction.runCurve (toupper sel) (atoi t) (atoi l)⟩ := by
    unfold ECGenerator.main
    rw [if_neg hflag, if_neg h4]
    show (if atoi t < 1 ∨ atoi t > 100 then _ else if atoi l < 1 then _ else _) = _
    rw [if_neg ht2, if_neg hl2]
    rfl
  have hsig : ECDSASigner.main atoi [prog, sel, t, l]
      = ⟨0, MainAction.runCurve (toupper sel) (atoi t) (atoi l)⟩ := by
    unfold ECDSASigner.main
    rw [if_neg hflag, if_neg h4]
    show (if atoi t < 1 ∨ atoi t > 100 then _ else if atoi l < 1 then _ else _) = _
    rw [if_neg ht2, if_neg hl2]
    rfl
  refine ⟨⟨by rw [hec], ?_⟩, ⟨by rw [hsig], ?_⟩⟩
  · unfold mainActions
    simp only [Tool.main, hec]
    simp [runActions, Tool.checksCurve, hsel]
  · unfold mainActions
    simp only [Tool.main, hsig]
    simp [runActions, Tool.checksCurve, hsel]

/-- C15: the code at `ec_generator P999 4 100` and `ecdsa_signer P999 4 100`.  The
selector is not in `curve_map`, the counts are valid: `main` calls `run`, no
thread is started, no `updateStats` call is made, and `main` returns 0, where
the claim has the exit code 1. -/
theorem main_unknown_curve_exit_code :
    "P999" ∉ curve_map_keys
    ∧ Tool.main Tool.ECGenerator atoiDigits ["ec_generator", "P999", "4", "100"]
        = ⟨0, MainAction.runCurve "P999" 4 100⟩
    ∧ mainActions Tool.ECGenerator atoiDigits ["ec_generator", "P999", "4", "100"] = []
    ∧ runCalls Tool.ECGenerator ⟨false, fun _ => true, fun _ _ => some 5⟩ 4 100 = []
    ∧ Tool.main Tool.ECDSASigner atoiDigits ["ecdsa_signer", "P999", "4", "100"]
        = ⟨0, MainAction.runCurve "P999" 4 100⟩
    ∧ mainActions Tool.ECDSASigner atoiDigits ["ecdsa_signer", "P999", "4", "100"] = []
    ∧ runCalls Tool.ECDSASigner ⟨false, fun _ => true, fun _ _ => some 5⟩ 4 100 = [] := by
  decide

/-- C16, as stated, fails on the RSA generator, which has no list flag: a single
argument, `--curves` or `-c` or `--list`, gets the usage and the exit code 1. -/
theorem rsa_main_has_no_list_flag :
    Tool.main Tool.RSAGenerator atoiDigits ["rsa_generator", "--curves"]
        = ⟨1, MainAction.printUsage⟩
    ∧ Tool.main Tool.RSAGenerator atoiDigits ["rsa_generator", "-c"]
        = ⟨1, MainAction.printUsage⟩
    ∧ Tool.main Tool.RSAGenerator atoiDigits ["rsa_generator", "--list"]
        = ⟨1, MainAction.printUsage⟩ := by
  decide

/-- C16, amended. The EC key generator and the signer accept `--curves` or `-c` as
their only argument: they call `listSupportedCurves`, whose lines name every key
of `curve_map`, return 0 and start no run (no thread, hence no statistics
update).  The RSA generator has no list flag: with any single argument it prints
the usage and returns 1, again without a run. -/
theorem main_list_flag (atoi : String → Int) (prog flag : String)
    (hflag : flag = "--curves" ∨ flag = "-c") :
    (Tool.main Tool.ECGenerator atoi [prog, flag] = ⟨0, MainAction.listSupportedCurves⟩
      ∧ mainActions Tool.ECGenerator atoi [prog, flag] = [])
    ∧ (Tool.main Tool.ECDSASigner atoi [prog, flag] = ⟨0, MainAction.listSupportedCurves⟩
      ∧ mainActions Tool.ECDSASigner atoi [prog, flag] = [])
    ∧ (∀ c ∈ curve_map_keys, ∃ line ∈ listSupportedCurves, ("  " ++ c).data <+: line.data)
    ∧ (∀ arg : String, Tool.main Tool.RSAGenerator atoi [prog, arg] = ⟨1, MainAction.printUsage⟩
        ∧ mainActions Tool.RSAGenerator atoi [prog, arg] = []) := by
  have hcond : [prog, flag].length = 2
      ∧ ([prog, flag].getD 1 "" = "--curves" ∨ [prog, flag].getD 1 "" = "-c") :=
    ⟨rfl, hflag⟩
  have hec : Tool.main Tool.ECGenerator atoi [prog, flag]
      = ⟨0, MainAction.listSupportedCurves⟩ := by
    show ECGenerator.main atoi [prog, flag] = _
    unfold ECGenerator.main
    rw [if_pos hcond]
  have hsig : Tool.main Tool.ECDSASigner atoi [prog, flag]
      = ⟨0, MainAction.listSupportedCurves⟩ := by
    show ECDSASigner.main atoi [prog, flag] = _
    unfold ECDSASigner.main
    rw [if_pos hcond]
  have hrsa : ∀ arg : String,
      Tool.main Tool.RSAGenerator atoi [prog, arg] = ⟨1, MainAction.printUsage⟩ := by
    intro arg
    show RSAGenerator.main atoi [prog, arg] = _
    unfold RSAGenerator.main
    rw [if_pos (by simp)]
  refine ⟨⟨hec, ?_⟩, ⟨hsig, ?_⟩, by decide, fun arg => ⟨hrsa arg, ?_⟩⟩
  · unfold mainActions
    rw [hec]
  · unfold mainActions
    rw [hsig]
  · unfold mainActions
    rw [hrsa arg]

/-- C16, amended, at `ec_generator --curves` and `ecdsa_signer -c`. -/
theorem main_list_flag_witness :
    Tool.main Tool.ECGenerator atoiDigits ["ec_generator", "--curves"]
        = ⟨0, MainAction.listSupportedCurves⟩
    ∧ mainActions Tool.ECGenerator atoiDigits ["ec_generator", "--curves"] = []
    ∧ Tool.main Tool.ECDSASigner atoiDigits ["ecdsa_signer", "-c"]
        = ⟨0, MainAction.listSupportedCurves⟩ :=
  ⟨(main_list_flag atoiDigits "ec_generator" "--curves" (Or.inl rfl)).1.1,
   (main_list_flag atoiDigits "ec_generator" "--curves" (Or.inl rfl)).1.2,
   (main_list_flag atoiDigits "ecdsa_signer" "-c" (Or.inr rfl)).2.1.1⟩

/-! ## Setup failure of a worker -/

theorem interleaving_final_iff (tool : Tool) (ws : List (List Nat)) (s : Stats) :
    (∃ l, Interleaving ws l ∧ s = runStats tool l) ↔ s = runStats tool ws.flatten := by
  constructor
  · rintro ⟨l, hl, rfl⟩
    exact runStats_eq_of_perm tool hl.perm
  · intro hs
    exact ⟨_, Interleaving.sequential _, hs⟩

theorem flatten_eraseIdx_of_nil {α : Type} (ws : List (List α)) (j : Nat)
    (h : ws.getD j [] = []) : (ws.eraseIdx j).flatten = ws.flatten := by
  induction ws generalizing j with
  | nil => rfl
  | cons w ws ih =>
    cases j with
    | zero =>
      have hw : w = [] := by simpa using h
      simp [hw]
    | succ j =>
      have hj : ws.getD j [] = [] := by simpa using h
      simp [ih j hj]

theorem runCalls_getD_of_setup_failed (tool : Tool) (env : Env) (num_threads num_loops : Int)
    (j : Nat) (hj : env.setup_ok j = false) :
    (runCalls tool env num_threads num_loops).getD j [] = [] := by
  unfold runCalls
  split
  · rfl
  · by_cases hlt : j < num_threads.toNat
    · simp [List.getD_eq_getElem?_getD, hlt, workerCalls, hj]
    · have hnone : (List.range num_threads.toNat)[j]? = none := by
        rw [List.getElem?_eq_none_iff]
        simp only [List.length_range]
        omega
      simp [List.getD_eq_getElem?_getD, hnone]

/-- C17. A worker whose resource setup fails (in the signer: `createECKey`,
`EVP_MD_CTX_new` or the first `EVP_DigestSignInit`) returns without invoking the
timed operation and leaves the statistics as they were; and the final statistics
of a run in which the setup of worker `j` fails are those of the remaining
workers alone. -/
theorem setup_failure_contributes_nothing (tool : Tool) :
    (∀ (op : Nat → Outcome) (num_loops : Int) (s : Stats),
        workerThread tool false op num_loops s = s
        ∧ (workerThreadCounted tool false op num_loops s).invocations = 0
        ∧ (workerThreadCounted tool false op num_loops s).stats = s
        ∧ workerCalls false op num_loops = [])
    ∧ (∀ key_created md_ctx_created sign_init_ok : Bool,
        (key_created = false ∨ md_ctx_created = false ∨ sign_init_ok = false) →
        ECDSASigner.setup key_created md_ctx_created sign_init_ok = false)
    ∧ (∀ (env : Env) (num_threads num_loops : Int) (j : Nat), env.setup_ok j = false →
        ∀ s, RunFinal tool env num_threads num_loops s
          ↔ ∃ l, Interleaving ((runCalls tool env num_threads num_loops).eraseIdx j) l
              ∧ s = runStats tool l) := by
  refine ⟨fun op k s => ⟨rfl, rfl, rfl, rfl⟩, ?_, ?_⟩
  · intro a b c h
    cases a <;> cases b <;> cases c <;> simp_all [ECDSASigner.setup]
  · intro env n k j hj s
    rw [interleaving_final_iff, runFinal_iff,
      flatten_eraseIdx_of_nil _ j (runCalls_getD_of_setup_failed tool env n k j hj)]

/-- C17 on the EC generator with three workers of two loops, every key generation
measured at 5 microseconds, where the setup of worker 1 fails: the worker leaves
a state unchanged, its call list is empty, and the run ends as the run of the
two other workers does, with four samples. -/
theorem setup_failure_contributes_nothing_witness :
    workerThread Tool.ECGenerator false (fun _ => some 5) 2 ⟨3, 700, 200, 300, true⟩
        = ⟨3, 700, 200, 300, true⟩
    ∧ (runCalls Tool.ECGenerator ⟨true, fun w => decide (w ≠ 1), fun _ _ => some 5⟩ 3 2).eraseIdx 1
        = [[5, 5], [5, 5]]
    ∧ ∃ s, RunFinal Tool.ECGenerator ⟨true, fun w => decide (w ≠ 1), fun _ _ => some 5⟩ 3 2 s
        ∧ s = ⟨4, 20, 5, 5, true⟩ := by
  have h := setup_failure_contributes_nothing Tool.ECGenerator
  refine ⟨(h.1 (fun _ => some 5) 2 ⟨3, 700, 200, 300, true⟩).1, by decide, ?_⟩
  refine ⟨⟨4, 20, 5, 5, true⟩, ?_, rfl⟩
  rw [h.2.2 ⟨true, fun w => decide (w ≠ 1), fun _ _ => some 5⟩ 3 2 1 (by decide)]
  refine ⟨[5, 5, 5, 5], ?_, by decide⟩
  have hcalls : (runCalls Tool.ECGenerator
      ⟨true, fun w => decide (w ≠ 1), fun _ _ => some 5⟩ 3 2).eraseIdx 1 = [[5, 5], [5, 5]] := by
    decide
  rw [hcalls]
  exact Interleaving.sequential [[5, 5], [5, 5]]

/-! ## The orchestrator -/

theorem runActions_sorted (tool : Tool) (curve_known : Bool) (num_threads : Int) :
    (runActions tool curve_known num_threads).Pairwise (fun a b => a.rank ≤ b.rank) := by
  unfold runActions
  split
  · exact List.Pairwise.nil
  · simp only [List.pairwise_append, List.pairwise_map, List.mem_append, List.mem_map,
      List.mem_range, List.mem_cons, List.mem_singleton, List.pairwise_cons,
      List.not_mem_nil, List.Pairwise.nil, or_false]
    refine ⟨⟨⟨?_, ?_, ?_⟩, ?_, ?_⟩, ?_, ?_⟩
    · exact List.pairwise_of_forall (fun _ _ => le_refl _)
    · simp [Action.rank]
    · rintro a ⟨i, _, rfl⟩ b rfl
      simp [Action.rank]
    · exact List.pairwise_of_forall (fun _ _ => le_refl _)
    · rintro a (⟨i, _, rfl⟩ | rfl) b ⟨j, _, rfl⟩ <;> simp [Action.rank]
    · simp [Action.rank]
    · rintro a ((⟨i, _, rfl⟩ | rfl) | ⟨i, _, rfl⟩) b (rfl | rfl | rfl) <;> simp [Action.rank]

theorem mem_runActions (tool : Tool) (curve_known : Bool) (num_threads : Int) (a : Action)
    (hrun : (tool.checksCurve && !curve_known) = false) :
    a ∈ runActions tool curve_known num_threads ↔
      (∃ i, i < num_threads.toNat ∧ a = Action.spawnWorker i) ∨ a = Action.spawnReporter
      ∨ (∃ i, i < num_threads.toNat ∧ a = Action.joinWorker i) ∨ a = Action.setDone
      ∨ a = Action.joinReporter ∨ a = Action.printFinal := by
  unfold runActions
  rw [hrun]
  simp only [Bool.false_eq_true, if_false, List.mem_append, List.mem_map, List.mem_range,
    List.mem_cons, List.mem_singleton, List.not_mem_nil, or_false]
  constructor
  · rintro (((⟨i, hi, rfl⟩ | rfl) | ⟨i, hi, rfl⟩) | rfl | rfl | rfl)
    · exact Or.inl ⟨i, hi, rfl⟩
    · exact Or.inr (Or.inl rfl)
    · exact Or.inr (Or.inr (Or.inl ⟨i, hi, rfl⟩))
    · exact Or.inr (Or.inr (Or.inr (Or.inl rfl)))
    · exact Or.inr (Or.inr (Or.inr (Or.inr (Or.inl rfl))))
    · exact Or.inr (Or.inr (Or.inr (Or.inr (Or.inr rfl))))
  · rintro (⟨i, hi, rfl⟩ | rfl | ⟨i, hi, rfl⟩ | rfl | rfl | rfl)
    · exact Or.inl (Or.inl (Or.inl ⟨i, hi, rfl⟩))
    · exact Or.inl (Or.inl (Or.inr rfl))
    · exact Or.inl (Or.inr ⟨i, hi, rfl⟩)
    · exact Or.inr (Or.inl rfl)
    · exact Or.inr (Or.inr (Or.inl rfl))
    · exact Or.inr (Or.inr (Or.inr rfl))

theorem runActions_eq_nil_or (tool : Tool) (curve_known : Bool) (num_threads : Int) :
    runActions tool curve_known num_threads = []
      ∨ (tool.checksCurve && !curve_known) = false := by
  cases h : (tool.checksCurve && !curve_known)
  · exact Or.inr rfl
  · left
    unfold runActions
    rw [h]
    rfl

theorem rank_le_of_split {tr pre post : List Action} {a : Action}
    (hs : tr.Pairwise (fun a b => a.rank ≤ b.rank)) (h : tr = pre ++ a :: post) :
    (∀ b ∈ pre, b.rank ≤ a.rank) ∧ (∀ b ∈ post, a.rank ≤ b.rank) := by
  subst h
  rw [List.pairwise_append] at hs
  obtain ⟨_, h2, h3⟩ := hs
  exact ⟨fun b hb => h3 b hb a (List.mem_cons_self _ _), fun b hb => (List.pairwise_cons.1 h2).1 b hb⟩

theorem runActions_phases (tool : Tool) (curve_known : Bool) (num_threads : Int)
    (hrun : (tool.checksCurve && !curve_known) = false) :
    (runActions tool curve_known num_threads).map Action.phase
      = List.replicate (2 * num_threads.toNat + 1) Phase.Running
          ++ [Phase.Draining, Phase.Done, Phase.Done] := by
  unfold runActions
  rw [hrun]
  simp only [Bool.false_eq_true, if_false, List.map_append, List.map_map, List.map_cons,
    List.map_nil, Action.phase]
  have h1 : List.map (Action.phase ∘ Action.spawnWorker) (List.range num_threads.toNat)
      = List.replicate num_threads.toNat Phase.Running := by
    rw [List.eq_replicate_iff]
    simp [Action.phase]
  have h2 : List.map (Action.phase ∘ Action.joinWorker) (List.range num_threads.toNat)
      = List.replicate num_threads.toNat Phase.Running := by
    rw [List.eq_replicate_iff]
    simp [Action.phase]
  rw [h1, h2]
  congr 1
  rw [List.eq_replicate_iff]
  refine ⟨?_, ?_⟩
  · simp
    omega
  · intro b hb
    simp only [List.mem_append, List.mem_replicate, List.mem_singleton] at hb
    rcases hb with (⟨_, rfl⟩ | rfl) | ⟨_, rfl⟩ <;> rfl

/-- C20. In the thread operations of `run`, taken in program order: when the stop
flag is set every worker that was started has been joined and none is joined
afterwards, and the reporter is not yet joined nor the final statistics printed;
the reporter is joined only after the flag is set; the final statistics are
printed only after the reporter is joined.  The states of the orchestrator
along the operations never go backwards, and in a run that starts its threads
they are Running throughout the starting and joining of workers, then Draining,
then Done. -/
theorem run_phases_in_order (tool : Tool) (curve_known : Bool) (num_threads : Int) :
    (∀ pre post, runActions tool curve_known num_threads = pre ++ Action.setDone :: post →
        (∀ i, Action.spawnWorker i ∈ runActions tool curve_known num_threads →
          Action.joinWorker i ∈ pre)
        ∧ (∀ i, Action.joinWorker i ∉ post)
        ∧ Action.joinReporter ∉ pre ∧ Action.printFinal ∉ pre)
    ∧ (∀ pre post, runActions tool curve_known num_threads = pre ++ Action.joinReporter :: post →
        Action.setDone ∈ pre ∧ Action.printFinal ∉ pre)
    ∧ (∀ pre post, runActions tool curve_known num_threads = pre ++ Action.printFinal :: post →
        Action.joinReporter ∈ pre)
    ∧ ((runActions tool curve_known num_threads).map Action.phase).Pairwise
        (fun p q => p.toNat ≤ q.toNat)
    ∧ ((tool.checksCurve && !curve_known) = false →
        (runActions tool curve_known num_threads).map Action.phase
          = List.replicate (2 * num_threads.toNat + 1) Phase.Running
              ++ [Phase.Draining, Phase.Done, Phase.Done]) := by
  have hsorted := runActions_sorted tool curve_known num_threads
  have hmem : ∀ {pre post : List Action} {a : Action},
      runActions tool curve_known num_threads = pre ++ a :: post →
      (tool.checksCurve && !curve_known) = false := by
    intro pre post a h
    rcases runActions_eq_nil_or tool curve_known num_threads with h0 | h0
    · rw [h0] at h
      simp at h
    · exact h0
  refine ⟨?_, ?_, ?_, ?_, runActions_phases tool curve_known num_threads⟩
  · intro pre post h
    obtain ⟨hpre, hpost⟩ := rank_le_of_split hsorted h
    have hrun := hmem h
    refine ⟨?_, ?_, ?_, ?_⟩
    · intro i hi
      have hi2 : i < num_threads.toNat := by
        rcases (mem_runActions tool curve_known num_threads _ hrun).1 hi with
          ⟨j, hj, hij⟩ | hh | ⟨j, _, hh⟩ | hh | hh | hh
        · cases hij
          exact hj
        all_goals cases hh
      have hjoin : Action.joinWorker i ∈ runActions tool curve_known num_threads :=
        (mem_runActions tool curve_known num_threads _ hrun).2
          (Or.inr (Or.inr (Or.inl ⟨i, hi2, rfl⟩)))
      rw [h, List.mem_append, List.mem_cons] at hjoin
      rcases hjoin with hj | hj | hj
      · exact hj
      · cases hj
      · have := hpost _ hj
        simp [Action.rank] at this
    · intro i hi
      have := hpost _ hi
      simp [Action.rank] at this
    · intro hp
      have := hpre _ hp
      simp [Action.rank] at this
    · intro hp
      have := hpre _ hp
      simp [Action.rank] at this
  · intro pre post h
    obtain ⟨hpre, hpost⟩ := rank_le_of_split hsorted h
    have hrun := hmem h
    refine ⟨?_, ?_⟩
    · have hd : Action.setDone ∈ runActions tool curve_known num_threads :=
        (mem_runActions tool curve_known num_threads _ hrun).2
          (Or.inr (Or.inr (Or.inr (Or.inl rfl))))
      rw [h, List.mem_append, List.mem_cons] at hd
      rcases hd with hd | hd | hd
      · exact hd
      · cases hd
      · have := hpost _ hd
        simp [Action.rank] at this
    · intro hp
      have := hpre _ hp
      simp [Action.rank] at this
  · intro pre post h
    obtain ⟨hpre, hpost⟩ := rank_le_of_split hsorted h
    have hrun := hmem h
    have hd : Action.joinReporter ∈ runActions tool curve_known num_threads :=
      (mem_runActions tool curve_known num_threads _ hrun).2
        (Or.inr (Or.inr (Or.inr (Or.inr (Or.inl rfl)))))
    rw [h, List.mem_append, List.mem_cons] at hd
    rcases hd with hd | hd | hd
    · exact hd
    · cases hd
    · have := hpost _ hd
      simp [Action.rank] at this
  · rw [List.pairwise_map]
    refine hsorted.imp ?_
    intro a b hab
    cases a <;> cases b <;> simp [Action.rank, Action.phase, Phase.toNat] at hab ⊢

/-- C20 on the EC generator with two threads: the eight operations in order, the
flag set after both joins, and the states Running (five times), Draining, Done. -/
theorem run_phases_in_order_witness :
    runActions Tool.ECGenerator true 2
      = [Action.spawnWorker 0, Action.spawnWorker 1, Action.spawnReporter,
          Action.joinWorker 0, Action.joinWorker 1]
        ++ Action.setDone :: [Action.joinReporter, Action.printFinal]
    ∧ Action.joinWorker 0 ∈ [Action.spawnWorker 0, Action.spawnWorker 1, Action.spawnReporter,
          Action.joinWorker 0, Action.joinWorker 1]
    ∧ Action.joinWorker 1 ∈ [Action.spawnWorker 0, Action.spawnWorker 1, Action.spawnReporter,
          Action.joinWorker 0, Action.joinWorker 1]
    ∧ (runActions Tool.ECGenerator true 2).map Action.phase
        = List.replicate 5 Phase.Running ++ [Phase.Draining, Phase.Done, Phase.Done] := by
  have h := run_phases_in_order Tool.ECGenerator true 2
  have hsplit : runActions Tool.ECGenerator true 2
      = [Action.spawnWorker 0, Action.spawnWorker 1, Action.spawnReporter,
          Action.joinWorker 0, Action.joinWorker 1]
        ++ Action.setDone :: [Action.joinReporter, Action.printFinal] := by decide
  exact ⟨hsplit, (h.1 _ _ hsplit).1 0 (by decide), (h.1 _ _ hsplit).1 1 (by decide),
    h.2.2.2.2 (by decide)⟩

/-! ## The mutex discipline -/

/-- Each statement of `updateStats` takes the fields from what is expected at its
program point to what is expected at the next; at the end of the scope the
fields are those of the whole call. -/
theorem mid_micro (tool : Tool) (p : UpdatePc) (base : Stats) (d : Nat) (s : Stats)
    (h : Mid tool p base d s) (hp : p ≠ UpdatePc.unlock) :
    Mid tool (micro tool d p s).2 base d (micro tool d p s).1 := by
  cases p with
  | check =>
    simp only [Mid] at h
    subst h
    by_cases hd : d = 0 ∨ d > tool.ceiling
    · simp only [micro, if_pos hd, Mid]
      rw [updateStats_of_not_passes tool s d ((passes_eq_false_iff tool d).2 hd)]
    · have hpass : passes tool d = true := by
        rw [passes_iff]
        omega
      simp only [micro, if_neg hd, Mid]
      exact ⟨hpass, trivial⟩
  | incCount =>
    obtain ⟨hpass, rfl⟩ := h
    exact ⟨hpass, rfl⟩
  | addTime =>
    obtain ⟨hpass, rfl⟩ := h
    exact ⟨hpass, rfl⟩
  | testFirst =>
    obtain ⟨hpass, rfl⟩ := h
    cases hf : base.first_key_generated
    · simp only [micro, hf, Bool.not_false, if_true, Mid]
      exact ⟨hpass, trivial, trivial⟩
    · simp only [micro, hf, Bool.not_true, Bool.false_eq_true, if_false, Mid]
      exact ⟨hpass, trivial, trivial⟩
  | setMin =>
    obtain ⟨hpass, hf, rfl⟩ := h
    exact ⟨hpass, hf, rfl⟩
  | setMax =>
    obtain ⟨hpass, hf, rfl⟩ := h
    exact ⟨hpass, hf, rfl⟩
  | setFirst =>
    obtain ⟨hpass, hf, rfl⟩ := h
    simp only [micro, Mid]
    rw [updateStats_of_passes tool base d hpass, hf]
    rfl
  | lowerMin =>
    obtain ⟨hpass, hf, rfl⟩ := h
    refine ⟨hpass, hf, ?_⟩
    simp only [micro]
    by_cases hlt : d < base.min_time_microseconds
    · rw [if_pos hlt, Nat.min_eq_right (Nat.le_of_lt hlt)]
    · rw [if_neg hlt, Nat.min_eq_left (Nat.le_of_not_lt hlt)]
  | raiseMax =>
    obtain ⟨hpass, hf, rfl⟩ := h
    simp only [micro, Mid]
    rw [updateStats_of_passes tool base d hpass, hf]
    by_cases hgt : d > base.max_time_microseconds
    · rw [if_pos hgt]
      simp only [if_true]
      rw [Nat.max_eq_right (Nat.le_of_lt hgt)]
    · rw [if_neg hgt]
      simp only [if_true]
      rw [Nat.max_eq_left (Nat.le_of_not_lt hgt)]
  | unlock => exact absurd rfl hp

theorem lockInv_none {tool : Tool} {sys : Sys} (hm : sys.mutex = none) :
    LockInv tool sys ↔
      (sys.shared = runStats tool sys.serial
      ∧ (∀ (j : Nat) (w : WorkerState), sys.workers[j]? = some w → w.pc = none)
      ∧ sys.reporter.pc = none) := by
  unfold LockInv
  rw [hm]

theorem lockInv_worker {tool : Tool} {sys : Sys} {i : Nat}
    (hm : sys.mutex = some (Tid.worker i)) :
    LockInv tool sys ↔
      (sys.reporter.pc = none
      ∧ (∀ (j : Nat) (w : WorkerState), sys.workers[j]? = some w → j ≠ i → w.pc = none)
      ∧ ∃ w d p, sys.workers[i]? = some w ∧ w.pc = some (d, p)
          ∧ Mid tool p (runStats tool sys.serial) d sys.shared) := by
  unfold LockInv
  rw [hm]

theorem lockInv_reporter {tool : Tool} {sys : Sys} (hm : sys.mutex = some Tid.reporter) :
    LockInv tool sys ↔
      (sys.shared = runStats tool sys.serial
      ∧ (∀ (j : Nat) (w : WorkerState), sys.workers[j]? = some w → w.pc = none)
      ∧ ∃ p, sys.reporter.pc = some p ∧ ReadSoFar p sys.reporter.locals sys.shared) := by
  unfold LockInv
  rw [hm]

/-- A thread that is inside the block of `printStats` owns the mutex. -/
theorem mutex_of_reporter_inside {tool : Tool} {sys : Sys} (h : LockInv tool sys)
    {p : ReadPc} (hp : sys.reporter.pc = some p) : sys.mutex = some Tid.reporter := by
  cases hm : sys.mutex with
  | none =>
    have := ((lockInv_none hm).1 h).2.2
    rw [hp] at this
    cases this
  | some t =>
    cases t with
    | worker i =>
      have := ((lockInv_worker hm).1 h).1
      rw [hp] at this
      cases this
    | reporter => rfl

/-- A worker that is inside `updateStats` owns the mutex. -/
theorem mutex_of_worker_inside {tool : Tool} {sys : Sys} (h : LockInv tool sys)
    {i : Nat} {w : WorkerState} {x : Nat × UpdatePc}
    (hw : sys.workers[i]? = some w) (hp : w.pc = some x) :
    sys.mutex = some (Tid.worker i) := by
  cases hm : sys.mutex with
  | none =>
    have := ((lockInv_none hm).1 h).2.1 i w hw
    rw [hp] at this
    cases this
  | some t =>
    cases t with
    | worker k =>
      by_cases hik : i = k
      · rw [hik]
      · have := ((lockInv_worker hm).1 h).2.1 i w hw hik
        rw [hp] at this
        cases this
    | reporter =>
      have := ((lockInv_reporter hm).1 h).2.1 i w hw
      rw [hp] at this
      cases this

theorem inv_stepReporter (tool : Tool) (sys : Sys) (h : Inv tool sys) :
    Inv tool (stepReporter sys) := by
  obtain ⟨hlock, hsnap⟩ := h
  cases hpc : sys.reporter.pc with
  | none =>
    cases hm : sys.mutex with
    | none =>
      have hstep : stepReporter sys
          = { sys with mutex := some Tid.reporter,
                       reporter := { sys.reporter with pc := some ReadPc.readKeys } } := by
        simp only [stepReporter, hpc, hm]
      rw [hstep]
      obtain ⟨h1, h2, _⟩ := (lockInv_none hm).1 hlock
      exact ⟨(lockInv_reporter rfl).2 ⟨h1, h2, ReadPc.readKeys, rfl, trivial⟩, hsnap⟩
    | some t =>
      have hstep : stepReporter sys = sys := by
        simp only [stepReporter, hpc, hm]
      rw [hstep]
      exact ⟨hlock, hsnap⟩
  | some p =>
    have hm := mutex_of_reporter_inside hlock hpc
    obtain ⟨h1, h2, q, hq, hread⟩ := (lockInv_reporter hm).1 hlock
    have hqp : q = p := by
      rw [hpc] at hq
      exact (Option.some.inj hq).symm
    subst hqp
    cases q with
    | readKeys =>
      have hstep : stepReporter sys = { sys with reporter :=
          { pc := some ReadPc.readTime
            locals := { sys.reporter.locals with
              total_keys_generated := sys.shared.total_keys_generated } } } := by
        simp only [stepReporter, hpc]
      rw [hstep]
      refine ⟨(lockInv_reporter ?_).2 ?_, hsnap⟩
      · exact hm
      · exact ⟨h1, h2, ReadPc.readTime, rfl, rfl⟩
    | readTime =>
      have hstep : stepReporter sys = { sys with reporter :=
          { pc := some ReadPc.readMin
            locals := { sys.reporter.locals with
              total_time_microseconds := sys.shared.total_time_microseconds } } } := by
        simp only [stepReporter, hpc]
      rw [hstep]
      refine ⟨(lockInv_reporter ?_).2 ?_, hsnap⟩
      · exact hm
      · exact ⟨h1, h2, ReadPc.readMin, rfl, hread, rfl⟩
    | readMin =>
      have hstep : stepReporter sys = { sys with reporter :=
          { pc := some ReadPc.readMax
            locals := { sys.reporter.locals with
              min_time_microseconds := sys.shared.min_time_microseconds } } } := by
        simp only [stepReporter, hpc]
      rw [hstep]
      refine ⟨(lockInv_reporter ?_).2 ?_, hsnap⟩
      · exact hm
      · exact ⟨h1, h2, ReadPc.readMax, rfl, hread.1, hread.2, rfl⟩
    | readMax =>
      have hstep : stepReporter sys = { sys with reporter :=
          { pc := some ReadPc.readFlag
            locals := { sys.reporter.locals with
              max_time_microseconds := sys.shared.max_time_microseconds } } } := by
        simp only [stepReporter, hpc]
      rw [hstep]
      refine ⟨(lockInv_reporter ?_).2 ?_, hsnap⟩
      · exact hm
      · exact ⟨h1, h2, ReadPc.readFlag, rfl, hread.1, hread.2.1, hread.2.2, rfl⟩
    | readFlag =>
      have hstep : stepReporter sys = { sys with reporter :=
          { pc := some ReadPc.unlock
            locals := { sys.reporter.locals with
              first_key_generated := sys.shared.first_key_generated } } } := by
        simp only [stepReporter, hpc]
      rw [hstep]
      refine ⟨(lockInv_reporter ?_).2 ?_, hsnap⟩
      · exact hm
      · exact ⟨h1, h2, ReadPc.unlock, rfl,
          Stats.ext hread.1 hread.2.1 hread.2.2.1 hread.2.2.2 rfl⟩
    | unlock =>
      have hstep : stepReporter sys = { sys with
          mutex := none
          reporter := { sys.reporter with pc := none }
          snapshots := sys.snapshots ++ [sys.reporter.locals] } := by
        simp only [stepReporter, hpc]
      rw [hstep]
      refine ⟨(lockInv_none rfl).2 ⟨h1, h2, rfl⟩, ?_⟩
      intro snap hs
      rcases List.mem_append.1 hs with hs | hs
      · exact hsnap snap hs
      · rw [List.mem_singleton] at hs
        have hl : sys.reporter.locals = sys.shared := hread
        refine ⟨sys.serial.length, le_refl _, ?_⟩
        rw [hs, hl, h1, List.take_length]

theorem stepWorker_inside (tool : Tool) (i : Nat) (sys : Sys) (w : WorkerState) (d : Nat)
    (p : UpdatePc) (hw : sys.workers[i]? = some w) (hpc : w.pc = some (d, p))
    (hp : p ≠ UpdatePc.unlock) :
    stepWorker tool i sys =
      { sys with
        shared := (micro tool d p sys.shared).1
        workers := sys.workers.set i
          { pending := w.pending, pc := some (d, (micro tool d p sys.shared).2) } } := by
  cases p <;> first | exact absurd rfl hp | simp only [stepWorker, hw, hpc]

theorem stepWorker_unlock (tool : Tool) (i : Nat) (sys : Sys) (w : WorkerState) (d : Nat)
    (hw : sys.workers[i]? = some w) (hpc : w.pc = some (d, UpdatePc.unlock)) :
    stepWorker tool i sys =
      { sys with
        mutex := none
        workers := sys.workers.set i { pending := w.pending, pc := none }
        serial := sys.serial ++ [d] } := by
  simp only [stepWorker, hw, hpc]

theorem stepWorker_acquire (tool : Tool) (i : Nat) (sys : Sys) (w : WorkerState) (d : Nat)
    (rest : List Nat) (hw : sys.workers[i]? = some w) (hpc : w.pc = none)
    (hpend : w.pending = d :: rest) (hm : sys.mutex = none) :
    stepWorker tool i sys =
      { sys with
        mutex := some (Tid.worker i)
        workers := sys.workers.set i { pending := rest, pc := some (d, UpdatePc.check) } } := by
  simp only [stepWorker, hw, hpc, hpend, hm]

theorem stepWorker_blocked (tool : Tool) (i : Nat) (sys : Sys) (w : WorkerState)
    (hw : sys.workers[i]? = some w) (hpc : w.pc = none)
    (h : w.pending = [] ∨ sys.mutex ≠ none) : stepWorker tool i sys = sys := by
  rcases h with h | h
  · simp only [stepWorker, hw, hpc, h]
  · cases hpend : w.pending with
    | nil => simp only [stepWorker, hw, hpc, hpend]
    | cons d rest =>
      cases hm : sys.mutex with
      | none => exact absurd hm h
      | some t => simp only [stepWorker, hw, hpc, hpend, hm]

theorem getElem?_set_of_some {α : Type} (l : List α) (i j : Nat) (a b w : α)
    (hw : l[i]? = some w) (h : (l.set i a)[j]? = some b) :
    (j = i ∧ b = a) ∨ (j ≠ i ∧ l[j]? = some b) := by
  have hi : i < l.length := by
    rcases Nat.lt_or_ge i l.length with hlt | hge
    · exact hlt
    · rw [List.getElem?_eq_none_iff.2 hge] at hw
      cases hw
  by_cases hji : j = i
  · subst hji
    rw [List.getElem?_set_self hi] at h
    left
    exact ⟨rfl, (Option.some.inj h).symm⟩
  · right
    refine ⟨hji, ?_⟩
    rw [List.getElem?_set_ne (fun hh => hji hh.symm)] at h
    exact h

theorem getElem?_set_self_of_some {α : Type} (l : List α) (i : Nat) (a w : α)
    (hw : l[i]? = some w) : (l.set i a)[i]? = some a := by
  have hi : i < l.length := by
    rcases Nat.lt_or_ge i l.length with hlt | hge
    · exact hlt
    · rw [List.getElem?_eq_none_iff.2 hge] at hw
      cases hw
  exact List.getElem?_set_self hi

theorem inv_stepWorker (tool : Tool) (i : Nat) (sys : Sys) (h : Inv tool sys) :
    Inv tool (stepWorker tool i sys) := by
  obtain ⟨hlock, hsnap⟩ := h
  cases hw : sys.workers[i]? with
  | none =>
    have hstep : stepWorker tool i sys = sys := by simp only [stepWorker, hw]
    rw [hstep]
    exact ⟨hlock, hsnap⟩
  | some w =>
    cases hpc : w.pc with
    | none =>
      by_cases hblocked : w.pending = [] ∨ sys.mutex ≠ none
      · rw [stepWorker_blocked tool i sys w hw hpc hblocked]
        exact ⟨hlock, hsnap⟩
      · have hm : sys.mutex = none := by
          by_contra hne
          exact hblocked (Or.inr hne)
        obtain ⟨d, rest, hpend⟩ : ∃ d rest, w.pending = d :: rest := by
          cases hp : w.pending with
          | nil => exact absurd (Or.inl hp) hblocked
          | cons d rest => exact ⟨d, rest, rfl⟩
        rw [stepWorker_acquire tool i sys w d rest hw hpc hpend hm]
        obtain ⟨h1, h2, h3⟩ := (lockInv_none hm).1 hlock
        refine ⟨(lockInv_worker (i := i) ?_).2 ?_, hsnap⟩
        · rfl
        · refine ⟨h3, ?_, ?_⟩
          · intro j w' hj hji
            rcases getElem?_set_of_some _ _ _ _ _ _ hw hj with ⟨hj1, _⟩ | ⟨_, hj2⟩
            · exact absurd hj1 hji
            · exact h2 j w' hj2
          · exact ⟨_, d, UpdatePc.check, getElem?_set_self_of_some _ _ _ _ hw, rfl, h1⟩
    | some x =>
      obtain ⟨d, p⟩ := x
      have hm := mutex_of_worker_inside hlock hw hpc
      obtain ⟨h1, h2, w', d', p', hw', hpc', hmid⟩ := (lockInv_worker hm).1 hlock
      have hww : w' = w := by
        rw [hw] at hw'
        exact (Option.some.inj hw').symm
      subst hww
      have hdp : d' = d ∧ p' = p := by
        rw [hpc] at hpc'
        have := Option.some.inj hpc'
        exact ⟨(Prod.mk.inj this).1.symm, (Prod.mk.inj this).2.symm⟩
      obtain ⟨rfl, rfl⟩ := hdp
      by_cases hp : p' = UpdatePc.unlock
      · subst hp
        rw [stepWorker_unlock tool i sys w' d' hw hpc]
        have hshared : sys.shared = runStats tool (sys.serial ++ [d']) := by
          rw [runStats_snoc]
          exact hmid
        refine ⟨(lockInv_none ?_).2 ?_, ?_⟩
        · rfl
        · refine ⟨hshared, ?_, h1⟩
          intro j w'' hj
          rcases getElem?_set_of_some _ _ _ _ _ _ hw hj with ⟨_, hj1⟩ | ⟨hj1, hj2⟩
          · rw [hj1]
          · exact h2 j w'' hj2 hj1
        · intro snap hs
          obtain ⟨m, hm1, hm2⟩ := hsnap snap hs
          refine ⟨m, ?_, ?_⟩
          · simp only [List.length_append, List.length_singleton]
            omega
          · rw [hm2, List.take_append_of_le_length hm1]
      · rw [stepWorker_inside tool i sys w' d' p' hw hpc hp]
        refine ⟨(lockInv_worker (i := i) ?_).2 ?_, hsnap⟩
        · exact hm
        · refine ⟨h1, ?_, ?_⟩
          · intro j w'' hj hji
            rcases getElem?_set_of_some _ _ _ _ _ _ hw hj with ⟨hj1, _⟩ | ⟨_, hj2⟩
            · exact absurd hj1 hji
            · exact h2 j w'' hj2 hji
          · exact ⟨_, d', _, getElem?_set_self_of_some _ _ _ _ hw, rfl,
              mid_micro tool p' _ d' sys.shared hmid hp⟩

theorem inv_init (tool : Tool) (ws : List (List Nat)) : Inv tool (Sys.init ws) := by
  refine ⟨(lockInv_none rfl).2 ⟨rfl, ?_, rfl⟩, ?_⟩
  · intro j w hj
    simp only [Sys.init, List.getElem?_map, Option.map_eq_some'] at hj
    obtain ⟨calls, _, rfl⟩ := hj
    rfl
  · intro snap hs
    simp [Sys.init] at hs

theorem inv_exec (tool : Tool) (ws : List (List Nat)) (sched : List Tid) :
    Inv tool (exec tool ws sched) := by
  unfold exec
  induction sched using List.reverseRecOn with
  | nil => exact inv_init tool ws
  | append_singleton sched t ih =>
    rw [List.foldl_append]
    cases t with
    | worker i => exact inv_stepWorker tool i _ ih
    | reporter => exact inv_stepReporter tool _ ih

theorem split_of_getElem? {α : Type} (l : List α) (i : Nat) (x : α) (h : l[i]? = some x) :
    l = l.take i ++ x :: l.drop (i + 1)
    ∧ ∀ y, l.set i y = l.take i ++ y :: l.drop (i + 1) := by
  obtain ⟨hi, hx⟩ := List.getElem?_eq_some_iff.1 h
  refine ⟨?_, ?_⟩
  · rw [← hx, List.getElem_cons_drop, List.take_append_drop]
  · intro y
    rw [List.set_eq_take_append_cons_drop, if_pos hi]

theorem map_remaining_set_of_eq (workers : List WorkerState) (i : Nat) (w w' : WorkerState)
    (hw : workers[i]? = some w) (hrem : w'.remaining = w.remaining) :
    (workers.set i w').map WorkerState.remaining = workers.map WorkerState.remaining := by
  have hmap : (workers.map WorkerState.remaining)[i]? = some w.remaining := by
    rw [List.getElem?_map, hw]
    rfl
  obtain ⟨h1, h2⟩ := split_of_getElem? _ i _ hmap
  rw [List.map_set, h2 w'.remaining, hrem]
  exact h1.symm

theorem serialInv_stepWorker (tool : Tool) (ws : List (List Nat)) (i : Nat) (sys : Sys)
    (h : SerialInv ws sys) : SerialInv ws (stepWorker tool i sys) := by
  cases hw : sys.workers[i]? with
  | none =>
    have hstep : stepWorker tool i sys = sys := by simp only [stepWorker, hw]
    rw [hstep]
    exact h
  | some w =>
    cases hpc : w.pc with
    | none =>
      by_cases hblocked : w.pending = [] ∨ sys.mutex ≠ none
      · rw [stepWorker_blocked tool i sys w hw hpc hblocked]
        exact h
      · have hm : sys.mutex = none := by
          by_contra hne
          exact hblocked (Or.inr hne)
        obtain ⟨d, rest, hpend⟩ : ∃ d rest, w.pending = d :: rest := by
          cases hp : w.pending with
          | nil => exact absurd (Or.inl hp) hblocked
          | cons d rest => exact ⟨d, rest, rfl⟩
        rw [stepWorker_acquire tool i sys w d rest hw hpc hpend hm]
        intro l hl
        have hrem : ({ pending := rest, pc := some (d, UpdatePc.check) } : WorkerState).remaining
            = w.remaining := by
          simp only [WorkerState.remaining, hpc, hpend]
        simp only [map_remaining_set_of_eq sys.workers i w _ hw hrem] at hl
        exact h l hl
    | some x =>
      obtain ⟨d, p⟩ := x
      by_cases hp : p = UpdatePc.unlock
      · subst hp
        rw [stepWorker_unlock tool i sys w d hw hpc]
        intro l hl
        have hmap : (sys.workers.map WorkerState.remaining)[i]? = some (d :: w.pending) := by
          rw [List.getElem?_map, hw]
          simp only [Option.map_some', WorkerState.remaining, hpc]
        obtain ⟨h1, h2⟩ := split_of_getElem? _ i _ hmap
        simp only [List.map_set] at hl
        rw [h2] at hl
        have hl2 : Interleaving (sys.workers.map WorkerState.remaining) (d :: l) := by
          rw [h1]
          exact Interleaving.step _ _ d w.pending l hl
        have := h (d :: l) hl2
        simpa using this
      · rw [stepWorker_inside tool i sys w d p hw hpc hp]
        intro l hl
        have hrem : WorkerState.remaining ⟨w.pending, some (d, (micro tool d p sys.shared).2)⟩
            = w.remaining := by
          simp only [WorkerState.remaining, hpc]
        simp only [map_remaining_set_of_eq sys.workers i w _ hw hrem] at hl
        exact h l hl

theorem serialInv_stepReporter (ws : List (List Nat)) (sys : Sys) (h : SerialInv ws sys) :
    SerialInv ws (stepReporter sys) := by
  have hsame : (stepReporter sys).workers = sys.workers
      ∧ (stepReporter sys).serial = sys.serial := by
    cases hpc : sys.reporter.pc with
    | none =>
      cases hm : sys.mutex with
      | none => simp only [stepReporter, hpc, hm, and_self]
      | some t => simp only [stepReporter, hpc, hm, and_self]
    | some p => cases p <;> simp only [stepReporter, hpc, and_self]
  unfold SerialInv
  rw [hsame.1, hsame.2]
  exact h

theorem serialInv_exec (tool : Tool) (ws : List (List Nat)) (sched : List Tid) :
    SerialInv ws (exec tool ws sched) := by
  unfold exec
  induction sched using List.reverseRecOn with
  | nil =>
    intro l hl
    have hmap : (Sys.init ws).workers.map WorkerState.remaining = ws := by
      simp only [Sys.init, List.map_map]
      have hid : (WorkerState.remaining ∘ fun calls => ({ pending := calls, pc := none } : WorkerState))
          = id := by
        funext calls
        rfl
      rw [hid, List.map_id]
    simp only [List.foldl_nil] at hl ⊢
    rw [hmap] at hl
    exact hl
  | append_singleton sched t ih =>
    rw [List.foldl_append]
    cases t with
    | worker i => exact serialInv_stepWorker tool ws i _ ih
    | reporter => exact serialInv_stepReporter ws _ ih

theorem applyAll_filter (tool : Tool) (s : Stats) (l : List Nat) :
    applyAll tool s (l.filter (passes tool)) = applyAll tool s l := by
  induction l generalizing s with
  | nil => rfl
  | cons d l ih =>
    cases hd : passes tool d
    · rw [List.filter_cons_of_neg (by simp [hd])]
      show _ = applyAll tool (updateStats tool s d) l
      rw [updateStats_of_not_passes tool s d hd]
      exact ih s
    · rw [List.filter_cons_of_pos hd]
      exact ih (updateStats tool s d)

/-- C19. In every state `sys` that a run of the workers `ws` and the thread running
`printStats` reaches under any schedule of their single steps: a worker that is
inside `updateStats` owns the mutex, and then no other worker is inside and the
reporter is outside its block; a reporter inside its block owns the mutex, no
worker is inside `updateStats`, and the fields are those left by the completed
calls (never a partial update); every snapshot taken is the state after a
prefix of the completed calls, which is the state after a prefix of the accepted
samples among them; and the completed calls, in the order in which they released
the mutex, extend to a merge of the workers' call sequences. -/
theorem snapshots_are_serial_prefixes (tool : Tool) (ws : List (List Nat)) (sched : List Tid)
    (sys : Sys) (hsys : sys = exec tool ws sched) :
    (∀ (i : Nat) (w : WorkerState) (x : Nat × UpdatePc),
        sys.workers[i]? = some w → w.pc = some x →
        sys.mutex = some (Tid.worker i) ∧ sys.reporter.pc = none
        ∧ ∀ (j : Nat) (w' : WorkerState), sys.workers[j]? = some w' → j ≠ i → w'.pc = none)
    ∧ (∀ p : ReadPc, sys.reporter.pc = some p →
        sys.mutex = some Tid.reporter
        ∧ (∀ (j : Nat) (w : WorkerState), sys.workers[j]? = some w → w.pc = none)
        ∧ sys.shared = runStats tool sys.serial)
    ∧ (∀ snap ∈ sys.snapshots, ∃ m,
        snap = runStats tool (sys.serial.take m)
        ∧ snap = runStats tool ((sys.serial.take m).filter (passes tool))
        ∧ ∃ later, sys.serial.filter (passes tool)
            = (sys.serial.take m).filter (passes tool) ++ later)
    ∧ (∃ rest, Interleaving ws (sys.serial ++ rest)) := by
  subst hsys
  obtain ⟨hlock, hsnap⟩ := inv_exec tool ws sched
  have hserial := serialInv_exec tool ws sched
  refine ⟨?_, ?_, ?_, ?_⟩
  · intro i w x hw hpc
    have hm := mutex_of_worker_inside hlock hw hpc
    obtain ⟨h1, h2, _⟩ := (lockInv_worker hm).1 hlock
    exact ⟨hm, h1, h2⟩
  · intro p hp
    have hm := mutex_of_reporter_inside hlock hp
    obtain ⟨h1, h2, _⟩ := (lockInv_reporter hm).1 hlock
    exact ⟨hm, h2, h1⟩
  · intro snap hs
    obtain ⟨m, _, hm⟩ := hsnap snap hs
    refine ⟨m, hm, ?_, ?_⟩
    · rw [hm]
      exact (applyAll_filter tool Stats.fresh _).symm
    · refine ⟨((exec tool ws sched).serial.drop m).filter (passes tool), ?_⟩
      rw [← List.filter_append, List.take_append_drop]
  · exact ⟨_, hserial _ (Interleaving.sequential _)⟩

set_option maxRecDepth 20000 in
/-- C19 on the EC generator, worker 0 calling with 5 and 0, worker 1 with 7.  The
reporter asks for the mutex in the middle of the first call and has to wait; it
then takes a snapshot after the first call and one after all three.  The two
snapshots are whole states, after one and after three completed calls. -/
theorem snapshots_are_serial_prefixes_witness :
    (exec Tool.ECGenerator [[5, 0], [7]]
        ([Tid.worker 0, Tid.worker 0, Tid.worker 0, Tid.reporter]
          ++ List.replicate 6 (Tid.worker 0) ++ List.replicate 7 Tid.reporter
          ++ List.replicate 8 (Tid.worker 1) ++ List.replicate 3 (Tid.worker 0)
          ++ List.replicate 7 Tid.reporter)).snapshots
      = [⟨1, 5, 5, 5, true⟩, ⟨2, 12, 5, 7, true⟩]
    ∧ (exec Tool.ECGenerator [[5, 0], [7]]
        ([Tid.worker 0, Tid.worker 0, Tid.worker 0, Tid.reporter]
          ++ List.replicate 6 (Tid.worker 0) ++ List.replicate 7 Tid.reporter
          ++ List.replicate 8 (Tid.worker 1) ++ List.replicate 3 (Tid.worker 0)
          ++ List.replicate 7 Tid.reporter)).serial = [5, 7, 0]
    ∧ (exec Tool.ECGenerator [[5, 0], [7]]
        [Tid.worker 0, Tid.worker 0, Tid.worker 0, Tid.reporter]).mutex = some (Tid.worker 0)
    ∧ (exec Tool.ECGenerator [[5, 0], [7]]
        [Tid.worker 0, Tid.worker 0, Tid.worker 0, Tid.reporter]).reporter.pc = none := by
  have h := snapshots_are_serial_prefixes Tool.ECGenerator [[5, 0], [7]]
    [Tid.worker 0, Tid.worker 0, Tid.worker 0, Tid.reporter] _ rfl
  have hw := h.1 0 ⟨[0], some (5, UpdatePc.addTime)⟩ (5, UpdatePc.addTime) (by decide) rfl
  exact ⟨by decide, by decide, hw.1, hw.2.1⟩

/-! ## The postcondition of an accepted sample -/

theorem updateStats_ne_of_passes (tool : Tool) (s : Stats) (d : Nat)
    (h : passes tool d = true) : updateStats tool s d ≠ s := by
  intro heq
  have hc := congrArg Stats.total_keys_generated heq
  rw [updateStats_of_passes tool s d h] at hc
  simp only [UINT64_SIZE] at hc
  omega

/-- C21, as stated, fails on the RSA generator: in the state reached by
5,124,095,576 accepted calls of 3,600,000,000 microseconds one more such call,
which passes the filter, leaves sum = 3,490,448,384 and not `s.sum + d`. -/
theorem accepted_sum_wraps_rsa :
    runStats Tool.RSAGenerator (List.replicate 5124095576 3600000000)
        = ⟨5124095576, 18446744073600000000, 3600000000, 3600000000, true⟩
    ∧ passes Tool.RSAGenerator 3600000000 = true
    ∧ (RSAGenerator.updateStats
          ⟨5124095576, 18446744073600000000, 3600000000, 3600000000, true⟩
          3600000000).total_time_microseconds = 3490448384
    ∧ (RSAGenerator.updateStats
          ⟨5124095576, 18446744073600000000, 3600000000, 3600000000, true⟩
          3600000000).total_time_microseconds ≠ 18446744073600000000 + 3600000000 := by
  refine ⟨?_, by decide, by decide, by decide⟩
  rw [runStats_replicate Tool.RSAGenerator 5124095576 3600000000 (by decide) (by decide)]
  decide

/-- C21, amended. In the three tools, whose ceilings are 10,000,000, 3,600,000,000
and 1,000,000, for every state `s` and every duration `d` with
`1 ≤ d ≤ ceiling` (the ceiling included), `updateStats(d)` yields
count = s.count + 1 and sum = s.sum + d, both modulo `2^64` (so exactly when the
64-bit additions do not wrap), the flag true, and min = max = d if the flag of
`s` was false, otherwise min = minimum(s.min, d) and max = maximum(s.max, d);
and a duration changes the state, i.e. is accepted, if and only if
`1 ≤ d ≤ ceiling`. -/
theorem updateStats_accept_postcondition (tool : Tool) (s : Stats) (d : Nat) :
    (Tool.ECGenerator.ceiling = 10000000 ∧ Tool.RSAGenerator.ceiling = 3600000000
      ∧ Tool.ECDSASigner.ceiling = 1000000)
    ∧ (1 ≤ d ∧ d ≤ tool.ceiling →
        (updateStats tool s d).total_keys_generated
            = (s.total_keys_generated + 1) % UINT64_SIZE
        ∧ (updateStats tool s d).total_time_microseconds
            = (s.total_time_microseconds + d) % UINT64_SIZE
        ∧ (s.total_keys_generated + 1 < UINT64_SIZE →
            (updateStats tool s d).total_keys_generated = s.total_keys_generated + 1)
        ∧ (s.total_time_microseconds + d < UINT64_SIZE →
            (updateStats tool s d).total_time_microseconds = s.total_time_microseconds + d)
        ∧ (updateStats tool s d).first_key_generated = true
        ∧ (s.first_key_generated = false →
            (updateStats tool s d).min_time_microseconds = d
            ∧ (updateStats tool s d).max_time_microseconds = d)
        ∧ (s.first_key_generated = true →
            (updateStats tool s d).min_time_microseconds = min s.min_time_microseconds d
            ∧ (updateStats tool s d).max_time_microseconds = max s.max_time_microseconds d))
    ∧ (updateStats tool s d ≠ s ↔ 1 ≤ d ∧ d ≤ tool.ceiling) := by
  refine ⟨⟨rfl, rfl, rfl⟩, ?_, ?_⟩
  · intro hd
    have hp : passes tool d = true := (passes_iff tool d).2 hd
    rw [updateStats_of_passes tool s d hp]
    refine ⟨rfl, rfl, fun h => Nat.mod_eq_of_lt h, fun h => Nat.mod_eq_of_lt h, rfl, ?_, ?_⟩
    · intro hf
      simp [hf]
    · intro hf
      simp [hf]
  · constructor
    · intro hne
      by_contra hd
      have hp : passes tool d = false := by
        rw [passes_eq_false_iff]
        omega
      exact hne (updateStats_of_not_passes tool s d hp)
    · intro hd
      exact updateStats_ne_of_passes tool s d ((passes_iff tool d).2 hd)

/-- C21, amended, at the ceiling of the signer, from the fresh state and from a
state with three samples. -/
theorem updateStats_accept_postcondition_witness :
    (updateStats Tool.ECDSASigner Stats.fresh 1000000).total_keys_generated = 0 + 1
    ∧ (updateStats Tool.ECDSASigner Stats.fresh 1000000).min_time_microseconds = 1000000
    ∧ (updateStats Tool.ECDSASigner ⟨3, 700, 200, 300, true⟩ 1000000).total_time_microseconds
        = 700 + 1000000
    ∧ (updateStats Tool.ECDSASigner ⟨3, 700, 200, 300, true⟩ 1000000).max_time_microseconds
        = max 300 1000000
    ∧ updateStats Tool.ECDSASigner ⟨3, 700, 200, 300, true⟩ 1000000 ≠ ⟨3, 700, 200, 300, true⟩ := by
  have h0 := (updateStats_accept_postcondition Tool.ECDSASigner Stats.fresh 1000000).2.1
    (by decide)
  have h1 := (updateStats_accept_postcondition Tool.ECDSASigner ⟨3, 700, 200, 300, true⟩
    1000000).2.1 (by decide)
  exact ⟨h0.2.2.1 (by decide), (h0.2.2.2.2.2.1 rfl).1, h1.2.2.2.1 (by decide),
    (h1.2.2.2.2.2.2 rfl).2,
    (updateStats_accept_postcondition Tool.ECDSASigner ⟨3, 700, 200, 300, true⟩
      1000000).2.2.2 (by decide)⟩

/-! ## The range of the sum in a run -/

theorem toUInt64_of_neg (c : Int) (hc : isInt64 c) (hneg : c < 0) :
    2 ^ 63 ≤ toUInt64 c ∧ toUInt64 c > 3600000000 := by
  unfold isInt64 at hc
  unfold toUInt64 UINT64_SIZE
  omega

theorem foldl_loopBody_eq_unguarded (tool : Tool) (outs : List Outcome) (s : Stats)
    (hrange : ∀ c, some c ∈ outs → isInt64 c) :
    outs.foldl (loopBody tool) s = outs.foldl (loopBodyUnguarded tool) s := by
  induction outs generalizing s with
  | nil => rfl
  | cons o outs ih =>
    have ih2 := fun s => ih s (fun c hc => hrange c (List.mem_cons_of_mem _ hc))
    cases o with
    | none =>
      rw [List.foldl_cons, List.foldl_cons, ih2]
      rfl
    | some c =>
      rw [List.foldl_cons, List.foldl_cons, ih2,
        loopBody_some tool s c (hrange c (List.mem_cons_self _ _))]
      rfl

/-- C23. For every signed 64-bit count `c`, calling
`updateStats(static_cast<uint64_t>(c))` only when `c > 0`, as `workerThread`
does, leaves the same state as calling it unconditionally, for one iteration and
for a whole sequence of outcomes; a negative `c` becomes a value of at least
`2^63`, above every ceiling, and is rejected. -/
theorem worker_guard_redundant (tool : Tool) (s : Stats) (c : Int) (hc : isInt64 c) :
    (if c > 0 then updateStats tool s (toUInt64 c) else s) = updateStats tool s (toUInt64 c)
    ∧ loopBody tool s (some c) = loopBodyUnguarded tool s (some c)
    ∧ loopBody tool s none = loopBodyUnguarded tool s none
    ∧ (c < 0 → 2 ^ 63 ≤ toUInt64 c
        ∧ toUInt64 c > Tool.ECGenerator.ceiling ∧ toUInt64 c > Tool.RSAGenerator.ceiling
        ∧ toUInt64 c > Tool.ECDSASigner.ceiling
        ∧ updateStats tool s (toUInt64 c) = s)
    ∧ (∀ outs : List Outcome, (∀ c', some c' ∈ outs → isInt64 c') →
        outs.foldl (loopBody tool) s = outs.foldl (loopBodyUnguarded tool) s) := by
  have h1 : loopBody tool s (some c) = updateStats tool s (toUInt64 c) :=
    loopBody_some tool s c hc
  refine ⟨?_, h1, rfl, ?_, fun outs h => foldl_loopBody_eq_unguarded tool outs s h⟩
  · simpa [loopBody] using h1
  · intro hneg
    obtain ⟨h63, hbig⟩ := toUInt64_of_neg c hc hneg
    refine ⟨h63, ?_, ?_, ?_, ?_⟩
    · simp only [Tool.ceiling]
      omega
    · simp only [Tool.ceiling]
      omega
    · simp only [Tool.ceiling]
      omega
    · exact updateStats_of_not_passes tool s _
        (not_passes_toUInt64_of_nonpos tool c hc (by omega))

/-- C23 at the count -3 on the RSA generator: converted it is 2^64 - 3, and the
call made without the guard leaves the state as the guarded iteration does. -/
theorem worker_guard_redundant_witness :
    toUInt64 (-3) = 18446744073709551613
    ∧ loopBody Tool.RSAGenerator ⟨3, 700, 200, 300, true⟩ (some (-3))
        = loopBodyUnguarded Tool.RSAGenerator ⟨3, 700, 200, 300, true⟩ (some (-3))
    ∧ updateStats Tool.RSAGenerator ⟨3, 700, 200, 300, true⟩ (toUInt64 (-3))
        = ⟨3, 700, 200, 300, true⟩ := by
  have h := worker_guard_redundant Tool.RSAGenerator ⟨3, 700, 200, 300, true⟩ (-3) (by decide)
  exact ⟨by decide, h.2.1, (h.2.2.2.1 (by decide)).2.2.2.2⟩

/-! ## The displayed minimum and maximum -/

/-- C24. In every state reached from the fresh state by `updateStats` calls,
count > 0 implies that the flag is true and that min ≥ 1 and max ≥ 1; so the test
of `printStats` that forces the displayed min and max to zero fails, and the
displayed min and max are the stored values divided by `1000.0`.  With count 0
(and fewer than `2^64` calls made) the stored min and max are 0 and the zeros
displayed are again the stored values divided by `1000.0`, in any arithmetic
where 0 / 1000 is 0. -/
theorem displayed_min_max {α : Type} (F : FloatOps α) (tool : Tool) (l : List Nat) (T : Int) :
    ((runStats tool l).total_keys_generated > 0 →
        (runStats tool l).first_key_generated = true
        ∧ 1 ≤ (runStats tool l).min_time_microseconds
        ∧ 1 ≤ (runStats tool l).max_time_microseconds
        ∧ (!(runStats tool l).first_key_generated
            || (runStats tool l).min_time_microseconds == 0
            || (runStats tool l).max_time_microseconds == 0) = false
        ∧ (printStats F (runStats tool l) T).report.min_time_ms
            = F.div (F.ofUInt64 (runStats tool l).min_time_microseconds) F.thousand
        ∧ (printStats F (runStats tool l) T).report.max_time_ms
            = F.div (F.ofUInt64 (runStats tool l).max_time_microseconds) F.thousand)
    ∧ (l.length < UINT64_SIZE → (runStats tool l).total_keys_generated = 0 →
        F.div (F.ofUInt64 0) F.thousand = F.zero →
        (printStats F (runStats tool l) T).report.min_time_ms
            = F.div (F.ofUInt64 (runStats tool l).min_time_microseconds) F.thousand
        ∧ (printStats F (runStats tool l) T).report.max_time_ms
            = F.div (F.ofUInt64 (runStats tool l).max_time_microseconds) F.thousand) := by
  refine ⟨?_, ?_⟩
  · intro hpos
    have hf : (runStats tool l).first_key_generated = true := by
      rw [runStats_first, List.any_eq_true]
      rw [runStats_count] at hpos
      have hcount : 0 < l.countP (passes tool) := by
        rcases Nat.eq_zero_or_pos (l.countP (passes tool)) with h0 | h0
        · rw [h0] at hpos
          simp at hpos
        · exact h0
      obtain ⟨x, hx, hpx⟩ := List.countP_pos_iff.1 hcount
      exact ⟨x, hx, hpx⟩
    have hmin := ((passes_iff tool _).1 (runStats_min_spec tool l hf).1.2).1
    have hmax := ((passes_iff tool _).1 (runStats_max_spec tool l hf).1.2).1
    have hc0 : (runStats tool l).total_keys_generated ≠ 0 := by omega
    have hmin0 : (runStats tool l).min_time_microseconds ≠ 0 := by omega
    have hmax0 : (runStats tool l).max_time_microseconds ≠ 0 := by omega
    refine ⟨hf, hmin, hmax, ?_, ?_, ?_⟩
    · simp [hf, hmin0, hmax0]
    · simp [printStats, hc0, hf, hmin0, hmax0]
    · simp [printStats, hc0, hf, hmin0, hmax0]
  · intro hlen hc hz
    have hnf : (runStats tool l).first_key_generated = false := by
      rw [runStats_count_of_length_lt tool l hlen, List.countP_eq_zero] at hc
      rw [runStats_first, List.any_eq_false]
      exact hc
    obtain ⟨hmin, hmax⟩ := runStats_min_max_of_not_first tool l hnf
    rw [hmin, hmax, hz]
    simp [printStats, hc]

/-- C24 in exact arithmetic on the signer after the calls 4000, 0, 9000: count 2,
min 4000 and max 9000 are displayed as 4 and 9. -/
theorem displayed_min_max_witness :
    (runStats Tool.ECDSASigner [4000, 0, 9000]).first_key_generated = true
    ∧ (printStats exactOps (runStats Tool.ECDSASigner [4000, 0, 9000]) 3).report.min_time_ms = 4
    ∧ (printStats exactOps (runStats Tool.ECDSASigner [4000, 0, 9000]) 3).report.max_time_ms = 9 := by
  have h := (displayed_min_max exactOps Tool.ECDSASigner [4000, 0, 9000] 3).1 (by decide)
  have hmin : (runStats Tool.ECDSASigner [4000, 0, 9000]).min_time_microseconds = 4000 := by
    decide
  have hmax : (runStats Tool.ECDSASigner [4000, 0, 9000]).max_time_microseconds = 9000 := by
    decide
  refine ⟨h.1, ?_, ?_⟩
  · rw [h.2.2.2.2.1, hmin]
    norm_num [exactOps]
  · rw [h.2.2.2.2.2, hmax]
    norm_num [exactOps]

/-! ## The total announced by `run` -/

theorem wrapInt32_eq_self_iff (v : Int) : wrapInt32 v = v ↔ isInt32 v := by
  unfold wrapInt32 isInt32
  omega

/-- C25, as stated, fails: 100 threads and 21,474,837 loops pass the validation of
`main`, their product 2,147,483,700 is not a value of a 32-bit `int`, and the
`int` multiplication of the header leaves -2,147,483,596 on two's complement
hardware. -/
theorem header_total_overflows :
    validConfig 100 21474837 = true
    ∧ isInt32 100 ∧ isInt32 21474837
    ∧ (100 : Int) * 21474837 = 2147483700
    ∧ ¬ isInt32 (100 * 21474837)
    ∧ runHeaderTotal 100 21474837 = -2147483596
    ∧ runHeaderTotal 100 21474837 ≠ 100 * 21474837 := by
  decide

/-- C25, amended. For every configuration that passes the validation of `main`
(1 ≤ num_threads ≤ 100, num_loops ≥ 1, a 32-bit `int`), the total announced in
the header of `run`, the `int` product num_threads * num_loops, equals the
mathematical product exactly when that product is at most 2^31 - 1, which is
the case whenever num_loops ≤ 21,474,836. -/
theorem header_total_exact_iff (num_threads num_loops : Int)
    (hvalid : validConfig num_threads num_loops = true) :
    (runHeaderTotal num_threads num_loops = num_threads * num_loops
      ↔ num_threads * num_loops ≤ 2 ^ 31 - 1)
    ∧ (num_loops ≤ 21474836 →
        runHeaderTotal num_threads num_loops = num_threads * num_loops) := by
  have hv : (1 ≤ num_threads ∧ num_threads ≤ 100) ∧ 1 ≤ num_loops := by
    simp only [validConfig, Bool.and_eq_true, Bool.not_eq_true', Bool.or_eq_false_iff,
      decide_eq_false_iff_not] at hvalid
    omega
  have hpos : 0 < num_threads * num_loops := Int.mul_pos (by omega) (by omega)
  have hiff : runHeaderTotal num_threads num_loops = num_threads * num_loops
      ↔ num_threads * num_loops ≤ 2 ^ 31 - 1 := by
    unfold runHeaderTotal
    rw [wrapInt32_eq_self_iff]
    unfold isInt32
    omega
  refine ⟨hiff, fun hk => hiff.2 ?_⟩
  have h1 : num_threads * num_loops ≤ 100 * 21474836 :=
    Int.mul_le_mul hv.1.2 hk (by omega) (by omega)
  omega

/-- C25, amended, at 100 threads and 21,474,836 loops, the largest loop count for
which every valid thread count is announced exactly. -/
theorem header_total_exact_iff_witness :
    runHeaderTotal 100 21474836 = 100 * 21474836
    ∧ runHeaderTotal 4 100 = 400 :=
  ⟨(header_total_exact_iff 100 21474836 (by decide)).2 (by decide),
   (header_total_exact_iff 4 100 (by decide)).2 (by decide)⟩

end Bench
